import Mathlib

/-!
# Verification of `astroNN.apogee.downloader`

A shallow embedding of `src/downloader.py`: the seven public download
functions (`allstar`, `apogee_astronn`, `allvisit`, `combined_spectra`,
`visit_spectra`, `apogee_rc`, `apogee_distances`) and the private helper
`__apogee_credentials_downloader`.

Modelling choices:
* Filesystem state, the process-wide credential cache and a log of network
  operations are threaded explicitly through a `World` record.
* A download attempt (`urllib.request.urlretrieve`) is an event whose outcome
  is drawn from an environment function `net : Nat → Option Cred → … → Resp`
  indexed by the number of prior attempts and the currently cached
  credentials; a successful outcome carries the sha1 of the content written.
* The unbounded mutual recursion of the Python functions is modelled with a
  fuel parameter that decreases exactly at the recursive-call sites, so
  "recursion depth ≤ d" is "fuel d+1 does not exhaust"; a `.diverge` result
  means the fuel ran out.
* Raised Python exceptions (`ValueError`, `ConnectionError`, uncaught
  `urllib.error.HTTPError`, numpy's ambiguous-truth `ValueError`) become a
  `.raise` result.
-/

namespace AstroDL

/-- Outcome of one `urllib.request.urlretrieve` attempt.  `ok h` means the
    retrieval succeeded and wrote content whose sha1 digest is `h`;
    the other constructors are the `HTTPError` cases the code distinguishes
    (`"401" in str(emsg)`, `"404" in str(emsg)`, anything else). -/
inductive Resp where
  | ok (h : String)
  | e401
  | e404
  | eOther
deriving DecidableEq, Repr

/-- Python exceptions that can escape the modelled code. -/
inductive Exc where
  | valueError        -- unsupported data release
  | connectionError   -- "Wrong username or password"
  | httpError (r : Resp)  -- an uncaught urllib.error.HTTPError
  | truthAmbiguous    -- numpy: truth value of a multi-element array
deriving DecidableEq, Repr

/-- Value returned by a public download function: the local file path, or the
    module-level `warning_flag = False` sentinel. -/
inductive RVal where
  | path (s : String)
  | flagFalse
deriving DecidableEq, Repr

/-- One observable network operation performed during a call, plus a marker
    recorded at each corruption-recovery recursive call site. -/
inductive NetOp where
  | retrieve (url : String)   -- urllib.request.urlretrieve
  | openUrl (url : String)    -- urllib.request.urlopen
  | recurse                   -- a recursive self-call is about to run
deriving DecidableEq, Repr

/-- The process-wide credential pair (`__apogee_credentials_username` /
    `__apogee_credentials_pw`). -/
structure Cred where
  user : String
  pw : String
deriving DecidableEq, Repr

/-- `flag == 1` as Python evaluates it (`None == 1` is `False`). -/
def flagIsOne : Option Nat → Bool
  | some 1 => true
  | _ => false

/-- Does the string start with the posix separator?  (`b.startswith('/')`). -/
def startsSlash (s : String) : Bool := s.data.head? == some '/'

/-- Does the string end with the posix separator?  (`a.endswith('/')`). -/
def endsSlash (s : String) : Bool := s.data.getLast? == some '/' 

/-- `posixpath.join a b`: if `b` is absolute it resets the path; otherwise it
    is appended, inserting `'/'` unless `a` is empty or already ends in one. -/
def pj (a b : String) : String :=
  if startsSlash b = true then b
  else if a = "" ∨ endsSlash a = true then a ++ b
  else a ++ "/" ++ b

/-- ASCII lower-casing of one character (the checksums are hex strings, so
    ASCII is all `str.lower()` touches here). -/
def lowerChar (c : Char) : Char :=
  if 'A' ≤ c ∧ c ≤ 'Z' then Char.ofNat (c.toNat + 32) else c

/-- `str.lower()` restricted to ASCII. -/
def lowerStr (s : String) : String := ⟨s.data.map lowerChar⟩

/-! ## Fixed-checksum catalogs

`allstar`, `apogee_astronn`, `allvisit`, `apogee_rc` and `apogee_distances`
share one skeleton and differ in the hard-coded checksum, the path/URL
strings, whether the download is wrapped in a `try`/`except` (and which
handler), and whether the integrity check and the download check are two
separate `if` statements (`allstar`, `apogee_astronn`) or an `if`/`elif`
chain (the rest). -/

/-- Error-handling of the download attempt:
  * `cred`: `except HTTPError` with `401 → __apogee_credentials_downloader`,
    `404 → warning_flag`, otherwise `warning_flag`
    (`allstar`, `apogee_astronn`, `apogee_rc`);
  * `noTry`: no `try` at all, the `HTTPError` propagates (`allvisit`);
  * `bare404`: `except HTTPError:` catches everything and returns
    `warning_flag` (`apogee_distances`). -/
inductive ErrStyle where
  | cred
  | noTry
  | bare404
deriving DecidableEq, Repr

/-- Per-catalog data for the fixed-checksum skeleton. -/
structure FixedCfg where
  fileHash : String
  fullfilename : String
  url : String
  style : ErrStyle
  sepIf : Bool
deriving DecidableEq, Repr

/-- World state while running a fixed-checksum download function:
`localHash` is the sha1 of the single relevant local file (if it exists),
`creds` the process-wide credential cache, `log` the observable operations
performed so far, and `attempts` indexes the next `urlretrieve`. -/
structure WorldA where
  localHash : Option String
  creds : Option Cred
  log : List NetOp
  attempts : Nat
deriving DecidableEq, Repr

/-- Network environment: outcome of the `i`-th retrieval attempt given the
    credentials in effect, and the credential pair an interactive prompt
    would produce. -/
structure NetEnvA where
  net : Nat → Option Cred → Resp
  prompt : Cred

/-- Result of a call: normal return, raised exception, or fuel exhaustion
    (the recursion went deeper than the fuel allowed). -/
inductive OutA where
  | ret (v : RVal) (w : WorldA)
  | raise (e : Exc) (w : WorldA)
  | diverge
deriving DecidableEq, Repr

/-- Final world of a finished (returned or raised) computation. -/
def OutA.world : OutA → Option WorldA
  | .ret _ w => some w
  | .raise _ w => some w
  | .diverge => none

/-- Returned value of a normally finished computation. -/
def OutA.retValue : OutA → Option RVal
  | .ret v _ => some v
  | _ => none

/-- `__apogee_credentials_downloader url fullfilename`: prompt for
    credentials if none are cached, retry the retrieval with basic auth;
    a second 401 clears the cache and raises `ConnectionError`; 404 and other
    HTTP errors warn and return `warning_flag`; success returns the path. -/
def credDL (env : NetEnvA) (url fname : String) (w : WorldA) : OutA :=
  let w1 : WorldA := if w.creds = none then { w with creds := some env.prompt } else w
  let r := env.net w1.attempts w1.creds
  let w2 : WorldA :=
    { w1 with attempts := w1.attempts + 1, log := w1.log ++ [NetOp.retrieve url] }
  match r with
  | .ok h => .ret (.path fname) { w2 with localHash := some h }
  | .e401 => .raise .connectionError { w2 with creds := none }
  | .e404 => .ret .flagFalse w2
  | .eOther => .ret .flagFalse w2

/-- Body of the download branch (the contents of the `try:` block): retrieve
    the file, verify its checksum, and on mismatch warn and re-enter the
    function via `recur` (whose return value is discarded — the block then
    falls through to `return fullfilename`).  An HTTP error surfaces as a
    `.raise (.httpError _)` to be fed to the per-function handler. -/
def tryBody (cfg : FixedCfg) (env : NetEnvA) (recur : WorldA → OutA) (w : WorldA) : OutA :=
  match env.net w.attempts w.creds with
  | .ok h =>
    let w2 : WorldA :=
      { w with localHash := some h, attempts := w.attempts + 1,
               log := w.log ++ [NetOp.retrieve cfg.url] }
    if h ≠ lowerStr cfg.fileHash then
      match recur { w2 with log := w2.log ++ [NetOp.recurse] } with
      | .ret _ w3 => .ret (.path cfg.fullfilename) w3
      | .raise e w3 => .raise e w3
      | .diverge => .diverge
    else .ret (.path cfg.fullfilename) w2
  | r =>
    .raise (.httpError r)
      { w with attempts := w.attempts + 1, log := w.log ++ [NetOp.retrieve cfg.url] }

/-- The `except` clause wrapped around `tryBody`, per `ErrStyle`. -/
def applyHandler (cfg : FixedCfg) (env : NetEnvA) (out : OutA) : OutA :=
  match cfg.style with
  | .noTry => out
  | .cred =>
    match out with
    | .raise (.httpError .e401) w => credDL env cfg.url cfg.fullfilename w
    | .raise (.httpError .e404) w => .ret .flagFalse w
    | .raise (.httpError .eOther) w => .ret .flagFalse w
    | o => o
  | .bare404 =>
    match out with
    | .raise (.httpError _) w => .ret .flagFalse w
    | o => o

/-- The `if os.path.isfile(...) and flag is None:` integrity check: compare
    the local file's checksum with the hard-coded one, warn and recurse on a
    mismatch (discarding the recursive call's value but propagating its
    exceptions), and hand the resulting world to the rest of the function. -/
def integrityStep (cfg : FixedCfg) (recur : WorldA → OutA) (w : WorldA) : Sum OutA WorldA :=
  match w.localHash with
  | some checksum =>
    if checksum ≠ lowerStr cfg.fileHash then
      match recur { w with log := w.log ++ [NetOp.recurse] } with
      | .ret _ w' => .inr w'
      | .raise e w' => .inl (.raise e w')
      | .diverge => .inl .diverge
    else .inr w
  | none => .inr w

/-- The fixed-checksum skeleton (`allstar` et al.).  `dr ≠ 17` raises
    `ValueError`; otherwise: if the local file exists and `flag is None`,
    verify its checksum and on mismatch recurse with `flag=1` (return value
    discarded); then (either as a second `if` re-examining the filesystem, or
    as the `elif` of the first check) download when the file is absent or
    `flag == 1`.  Fuel decreases exactly at the recursive-call sites. -/
def fetchFixed (cfg : FixedCfg) (env : NetEnvA) : Nat → Nat → WorldA → Option Nat → OutA
  | 0, _, _, _ => .diverge
  | n + 1, dr, w, flag =>
    if dr ≠ 17 then .raise .valueError w
    else
      let recur : WorldA → OutA := fun w' => fetchFixed cfg env n dr w' (some 1)
      let b1 : Bool := w.localHash.isSome && flag.isNone
      match (if b1 then integrityStep cfg recur w else .inr w) with
      | .inl out => out
      | .inr w' =>
        if (cfg.sepIf || !b1) && (!w'.localHash.isSome || flagIsOne flag) then
          applyHandler cfg env (tryBody cfg env recur w')
        else .ret (.path cfg.fullfilename) w'

/-- `allstar` (DR17): hard-coded sha1, path under
    `dr17/apogee/spectro/aspcap/dr17/synspec/`, credential-aware error
    handling, and two separate `if` statements. -/
def allstarCfg (root : String) : FixedCfg :=
  { fileHash := "0e70c02323132af4045545d2329e3f1cb8fdb1e0"
    fullfilename :=
      pj (pj "/" (pj (pj "/" root) "dr17/apogee/spectro/aspcap/dr17/synspec/"))
        "allStar-dr17-synspec.fits"
    url := "https://data.sdss.org/sas/dr17/apogee/spectro/aspcap/dr17/synspec/allStar-dr17-synspec.fits"
    style := .cred
    sepIf := true }

/-- `apogee_astronn` (DR17). -/
def apogeeAstronnCfg (root : String) : FixedCfg :=
  { fileHash := "c422b9adba840b3415af2fe6dec6500219f1b68f"
    fullfilename :=
      pj (pj "/" (pj (pj "/" root) "dr17/apogee/vac/apogee-astronn/"))
        "apogee_astroNN-DR17.fits"
    url := "https://data.sdss.org/sas/dr17/apogee/vac/apogee-astronn/apogee_astroNN-DR17.fits"
    style := .cred
    sepIf := true }

/-- `allvisit` (DR17): the download is not wrapped in any `try`, so an
    `HTTPError` propagates to the caller. -/
def allvisitCfg (root : String) : FixedCfg :=
  { fileHash := "fb2f5ecbabbe156f8ec37b420e095f3ba8323cc6"
    fullfilename :=
      pj (pj "/" (pj (pj "/" root) "dr17/apogee/spectro/aspcap/dr17/synspec/"))
        "allVisit-dr17-synspec.fits"
    url := "https://data.sdss.org/sas/dr17/apogee/spectro/aspcap/dr17/synspec/allVisit-dr17-synspec.fits"
    style := .noTry
    sepIf := false }

/-- `apogee_rc` (DR17). -/
def apogeeRcCfg (root : String) : FixedCfg :=
  { fileHash := "d54e0ea4e6a3f5cc3c02a73b93260e992d9836d0"
    fullfilename :=
      pj (pj "/" (pj (pj "/" root) "dr17/apogee/vac/apogee-rc/cat/"))
        "apogee-rc-DR17.fits"
    url := "https://data.sdss.org/sas/dr17/apogee/vac/apogee-rc/cat/apogee-rc-DR17.fits"
    style := .cred
    sepIf := false }

/-- `apogee_distances` (DR17): a bare `except HTTPError` turns every HTTP
    error — including 401 — into `warning_flag`. -/
def apogeeDistancesCfg (root : String) : FixedCfg :=
  { fileHash := "2502e2f7703046163f81ecc4054dce39b2038e4f"
    fullfilename :=
      pj (pj "/" (pj (pj "/" root) "dr17/apogee/vac/apogee-starhorse/"))
        "APOGEE_DR17_EDR3_STARHORSE_v2.fits"
    url := "https://data.sdss.org/sas/dr17/apogee/vac/apogee-starhorse/APOGEE_DR17_EDR3_STARHORSE_v2.fits"
    style := .bare404
    sepIf := false }

/-! ## Manifest-checksum catalogs: `combined_spectra` and `visit_spectra`

These two functions look the expected checksum up in a per-directory
`.sha1sum` manifest that is itself a cached remote file, and their paths and
URLs are templated over the optional `field`, `apogee` and `telescope`
arguments (Python f-strings render `None` as the string `"None"`). -/

/-- Python `f"{x}"` on an optional string argument. -/
def pyStr : Option String → String
  | none => "None"
  | some s => s

/-- The argument record of `combined_spectra` / `visit_spectra` (after
    `apogee_default_dr` has resolved `dr`); `flag` is passed separately
    because the recursive call changes it.  `commission` belongs to
    `visit_spectra` only and is ignored by `combined_spectra`. -/
structure MDesc where
  dr : Nat
  location : Option Nat
  field : Option String
  apogee : Option String
  telescope : Option String
  verbose : Nat
  commission : Bool
deriving DecidableEq, Repr

/-- The corruption-recovery recursive call of both functions passes only
    `dr=dr, location=location, apogee=apogee, verbose=verbose, flag=1`,
    so `field`, `telescope` (and `commission`) fall back to their defaults. -/
def recurseDesc (d : MDesc) : MDesc :=
  { d with field := none, telescope := none, commission := false }

/-- Which of the two manifest-based functions is running. -/
inductive MKind where
  | combined
  | visit
deriving DecidableEq, Repr

/-- `str1`, the remote directory URL. -/
def mStr1 : MKind → MDesc → String
  | .combined, d =>
    "https://data.sdss.org/sas/dr17/apogee/spectro/aspcap/dr17/synspec/"
      ++ pyStr d.telescope ++ "/" ++ pyStr d.field ++ "/"
  | .visit, d =>
    "https://data.sdss.org/sas/dr17/apogee/spectro/redux/dr17/stars/"
      ++ pyStr d.telescope ++ "/" ++ pyStr d.field ++ "/"

/-- The data file name.  `visit_spectra` switches the prefix on
    `telescope == "lco25m"` and on `commission`. -/
def mFilename : MKind → MDesc → String
  | .combined, d => "aspcapStar-dr17-" ++ pyStr d.apogee ++ ".fits"
  | .visit, d =>
    (if d.telescope = some "lco25m" then
      (if d.commission then "asStarC-dr17-" else "asStar-dr17-")
     else
      (if d.commission then "apStarC-dr17-" else "apStar-dr17-"))
      ++ pyStr d.apogee ++ ".fits"

/-- The checksum-manifest file name. -/
def mHashFilename : MKind → MDesc → String
  | .combined, d =>
    "dr17_synspec_" ++ pyStr d.telescope ++ "_" ++ pyStr d.field ++ ".sha1sum"
  | .visit, d =>
    "dr17_stars_" ++ pyStr d.telescope ++ "_" ++ pyStr d.field ++ ".sha1sum"

/-- `urlstr`, the remote URL of the data file. -/
def mUrl (k : MKind) (d : MDesc) : String := mStr1 k d ++ mFilename k d

/-- The remote URL the manifest is retrieved from. -/
def mManifestUrl (k : MKind) (d : MDesc) : String := mStr1 k d ++ mHashFilename k d

/-- `fullfoldername`, the local cache directory. -/
def mFolder (k : MKind) (root : String) (d : MDesc) : String :=
  match k with
  | .combined =>
    pj (pj (pj "/" root)
        ("dr17/apogee/spectro/aspcap/dr17/synspec/" ++ pyStr d.telescope))
      (pyStr d.field)
  | .visit =>
    pj (pj (pj "/" root)
        ("dr17/apogee/spectro/redux/dr17/stars/" ++ pyStr d.telescope ++ "/"))
      (pyStr d.field)

/-- `fullfilename`, the local path of the data file. -/
def mFullfilename (k : MKind) (root : String) (d : MDesc) : String :=
  pj (mFolder k root d) (mFilename k d)

/-- `full_hash_filename`, the local path of the cached manifest. -/
def mHashPath (k : MKind) (root : String) (d : MDesc) : String :=
  pj (mFolder k root d) (mHashFilename k d)

/-- Python's substring test `p in s`. -/
def substrB (p s : String) : Bool := decide (p.data <:+: s.data)

/-- The substring `visit_spectra` greps the manifest for — note it always
    says `apStar`, whatever the telescope. -/
def visitPattern (d : MDesc) : String := "apStar-dr17-" ++ pyStr d.apogee

/-- The manifest rows matching the requested file:
`combined_spectra` selects rows whose filename column equals `filename`,
`visit_spectra` rows whose filename contains `visitPattern`. -/
def mSelectRows (k : MKind) (d : MDesc) (rows : List (String × String)) :
    List (String × String) :=
  match k with
  | .combined => rows.filter (fun r => r.2 = mFilename .combined d)
  | .visit => rows.filter (fun r => substrB (visitPattern d) r.2)

/-- `file_hash`, the list of expected checksums extracted from the manifest. -/
def mSelect (k : MKind) (d : MDesc) (rows : List (String × String)) : List String :=
  (mSelectRows k d rows).map (·.1)

/-- `checksum != file_hash and len(file_hash) != 0` where `file_hash` is a
    numpy string array: an empty array is falsy (short-circuiting the `and`),
    a singleton compares element-wise, and the truth value of a longer array
    is ambiguous (`ValueError`). -/
def mismatchCond (checksum : String) (fileHash : List String) : Except Unit Bool :=
  match fileHash with
  | [] => .ok false
  | [h] => .ok (checksum ≠ h)
  | _ => .error ()

/-- World state for the manifest-based functions: data files and parsed
    manifests are keyed by local path (`List.lookup`, newest first). -/
structure WorldB where
  files : List (String × String)
  manifests : List (String × List (String × String))
  creds : Option Cred
  log : List NetOp
  attempts : Nat
deriving DecidableEq, Repr

/-- Outcome of retrieving a manifest: its parsed `(sha1, filename)` rows, or
    the `HTTPError` the unprotected `urlretrieve` raises. -/
inductive MResp where
  | ok (rows : List (String × String))
  | err (r : Resp)
deriving DecidableEq, Repr

/-- Network environment for the manifest-based functions: data-file
    retrieval by attempt index, credentials and URL; whether `urlopen` of a
    directory listing succeeds; and what retrieving a manifest URL yields. -/
structure NetEnvB where
  net : Nat → Option Cred → String → Resp
  openOk : String → Bool
  mnet : String → MResp
  prompt : Cred

/-- Result of a `combined_spectra` / `visit_spectra` call. -/
inductive OutB where
  | ret (v : RVal) (w : WorldB)
  | raise (e : Exc) (w : WorldB)
  | diverge
deriving DecidableEq, Repr

/-- Final world of a finished computation. -/
def OutB.world : OutB → Option WorldB
  | .ret _ w => some w
  | .raise _ w => some w
  | .diverge => none

/-- Returned value of a normally finished computation. -/
def OutB.retValue : OutB → Option RVal
  | .ret v _ => some v
  | _ => none

/-- `__apogee_credentials_downloader`, acting on a `WorldB`. -/
def credDLB (env : NetEnvB) (url fname : String) (w : WorldB) : OutB :=
  let w1 : WorldB := if w.creds = none then { w with creds := some env.prompt } else w
  let r := env.net w1.attempts w1.creds url
  let w2 : WorldB :=
    { w1 with attempts := w1.attempts + 1, log := w1.log ++ [NetOp.retrieve url] }
  match r with
  | .ok h => .ret (.path fname) { w2 with files := (fname, h) :: w2.files }
  | .e401 => .raise .connectionError { w2 with creds := none }
  | .e404 => .ret .flagFalse w2
  | .eOther => .ret .flagFalse w2

/-- The `check hash file` prologue: if no local copy of the manifest exists,
    probe the directory listing with `urlopen(str1)` (an `HTTPError` there
    returns `warning_flag`), then retrieve the manifest — that `urlretrieve`
    is *not* inside any `try`, so its failure propagates as an exception.
    Yields the parsed manifest rows and the updated world. -/
def manifestStep (k : MKind) (root : String) (env : NetEnvB) (d : MDesc) (w : WorldB) :
    Sum OutB (List (String × String) × WorldB) :=
  match (w.manifests.lookup (mHashPath k root d) : Option (List (String × String))) with
  | some rows => .inr (rows, w)
  | none =>
    let wo : WorldB := { w with log := w.log ++ [NetOp.openUrl (mStr1 k d)] }
    if env.openOk (mStr1 k d) then
      let wr : WorldB :=
        { wo with attempts := wo.attempts + 1,
                  log := wo.log ++ [NetOp.retrieve (mManifestUrl k d)] }
      match env.mnet (mManifestUrl k d) with
      | .ok rows => .inr (rows, { wr with manifests := (mHashPath k root d, rows) :: wr.manifests })
      | .err r => .inl (.raise (.httpError r) wr)
    else .inl (.ret .flagFalse wo)

/-- The checksum comparison against the manifest entries, shared by the
    exists-locally branch and the after-download verification: on
    `checksum != file_hash and len(file_hash) != 0`, warn and recurse with
    `flag=1` (value discarded, exceptions propagate), then fall through to
    `return fullfilename`. -/
def checkHashM (fname : String) (fileHash : List String) (recur : WorldB → OutB)
    (checksum : String) (w : WorldB) : OutB :=
  match mismatchCond checksum fileHash with
  | .error _ => .raise .truthAmbiguous w
  | .ok true =>
    match recur { w with log := w.log ++ [NetOp.recurse] } with
    | .ret _ w2 => .ret (.path fname) w2
    | .raise e w2 => .raise e w2
    | .diverge => .diverge
  | .ok false => .ret (.path fname) w

/-- The `try:` block of the download branch: retrieve the data file and
    verify it against the manifest entries. -/
def tryBodyM (env : NetEnvB) (url fname : String) (fileHash : List String)
    (recur : WorldB → OutB) (w : WorldB) : OutB :=
  match env.net w.attempts w.creds url with
  | .ok h =>
    checkHashM fname fileHash recur h
      { w with files := (fname, h) :: w.files, attempts := w.attempts + 1,
               log := w.log ++ [NetOp.retrieve url] }
  | r =>
    .raise (.httpError r)
      { w with attempts := w.attempts + 1, log := w.log ++ [NetOp.retrieve url] }

/-- The `except urllib.error.HTTPError` clause of both manifest-based
    functions: 401 goes to the credentials downloader, 404 and anything else
    become `warning_flag`. -/
def handlerM (env : NetEnvB) (url fname : String) (out : OutB) : OutB :=
  match out with
  | .raise (.httpError .e401) w => credDLB env url fname w
  | .raise (.httpError .e404) w => .ret .flagFalse w
  | .raise (.httpError .eOther) w => .ret .flagFalse w
  | o => o

/-- `combined_spectra` / `visit_spectra` (DR17).  Steps, faithful to the
    source order: raise `ValueError` off DR17; ensure a local manifest
    (`manifestStep`); select `file_hash` from it; then the
    exists-and-`flag is None` checksum check with a discarded recursive call
    `(dr, location, apogee, verbose, flag=1)`, `elif` the download branch
    with the 401/404/other handler.  Fuel decreases at recursive calls. -/
def fetchM (k : MKind) (root : String) (env : NetEnvB) :
    Nat → MDesc → Option Nat → WorldB → OutB
  | 0, _, _, _ => .diverge
  | n + 1, d, flag, w =>
    if d.dr ≠ 17 then .raise .valueError w
    else
      let recur : WorldB → OutB := fun w' => fetchM k root env n (recurseDesc d) (some 1) w'
      let fname := mFullfilename k root d
      match manifestStep k root env d w with
      | .inl out => out
      | .inr (rows, w1) =>
        let fileHash := mSelect k d rows
        let hasLocal := ((w1.files.lookup fname : Option String)).isSome
        if hasLocal && flag.isNone then
          match (w1.files.lookup fname : Option String) with
          | some checksum => checkHashM fname fileHash recur checksum w1
          | none => .ret (.path fname) w1
        else if !hasLocal || flagIsOne flag then
          handlerM env (mUrl k d) fname (tryBodyM env (mUrl k d) fname fileHash recur w1)
        else .ret (.path fname) w1

/-! ## Shape lemmas for the fixed-checksum skeleton -/

theorem credDL_ret_shape (env : NetEnvA) (url f : String) (w : WorldA) (v : RVal)
    (w' : WorldA) (h : credDL env url f w = .ret v w') :
    v = .path f ∨ v = .flagFalse := by
  simp only [credDL] at h
  split at h <;> simp_all

theorem credDL_ne_diverge (env : NetEnvA) (url f : String) (w : WorldA) :
    credDL env url f w ≠ .diverge := by
  simp only [credDL]
  split <;> simp

theorem tryBody_ret_shape (cfg : FixedCfg) (env : NetEnvA) (recur : WorldA → OutA)
    (w : WorldA) (v : RVal) (w' : WorldA)
    (h : tryBody cfg env recur w = .ret v w') : v = .path cfg.fullfilename := by
  simp only [tryBody] at h
  split at h
  · split at h
    · split at h <;> simp_all
    · simp_all
  · simp_all

theorem applyHandler_ret_shape (cfg : FixedCfg) (env : NetEnvA) (out : OutA)
    (hout : ∀ v₁ w₁, out = OutA.ret v₁ w₁ → v₁ = .path cfg.fullfilename)
    (v : RVal) (w' : WorldA) (h : applyHandler cfg env out = .ret v w') :
    v = .path cfg.fullfilename ∨ v = .flagFalse := by
  simp only [applyHandler] at h
  split at h
  · exact .inl (hout v w' h)
  · split at h
    · rcases credDL_ret_shape _ _ _ _ _ _ h with h' | h'
      · exact .inl h'
      · exact .inr h'
    · simp_all
    · simp_all
    · exact .inl (hout v w' h)
  · split at h
    · simp_all
    · exact .inl (hout v w' h)

theorem integrityStep_inl (cfg : FixedCfg) (recur : WorldA → OutA) (w : WorldA)
    (out : OutA) (h : integrityStep cfg recur w = .inl out) :
    (∃ e w₁, out = OutA.raise e w₁) ∨ out = OutA.diverge := by
  simp only [integrityStep] at h
  split at h
  · split at h
    · split at h
      · simp_all
      · exact .inl ⟨_, _, ((Sum.inl.injEq _ _).mp h).symm⟩
      · exact .inr ((Sum.inl.injEq _ _).mp h).symm
    · simp_all
  · simp_all

/-- Every value a fixed-checksum download function returns normally is either
    the computed full file path or the `warning_flag = False` sentinel. -/
theorem fetchFixed_ret_shape (cfg : FixedCfg) (env : NetEnvA) (n dr : Nat)
    (w : WorldA) (flag : Option Nat) (v : RVal) (w' : WorldA)
    (h : fetchFixed cfg env n dr w flag = .ret v w') :
    v = .path cfg.fullfilename ∨ v = .flagFalse := by
  cases n with
  | zero => simp [fetchFixed] at h
  | succ n =>
    simp only [fetchFixed] at h
    split at h
    · simp_all
    · split at h
      · rename_i out hst
        split at hst
        · rcases integrityStep_inl _ _ _ _ hst with ⟨e, w₁, rfl⟩ | rfl <;> simp_all
        · simp_all
      · split at h
        · exact applyHandler_ret_shape cfg env _
            (fun v₁ w₁ h₁ => tryBody_ret_shape cfg env _ _ v₁ w₁ h₁) v w' h
        · simp_all

/-! ## Invariant lemmas for the fixed-checksum skeleton

The local data file is never deleted, and the only network operations a
fixed-checksum function can perform are retrievals of its one hard-coded
URL. -/

theorem credDL_localHash (env : NetEnvA) (url f : String) (w w' : WorldA)
    (h : (credDL env url f w).world = some w')
    (hw : w.localHash.isSome = true) : w'.localHash.isSome = true := by
  rcases hc : w.creds with _ | c <;>
    simp only [credDL, hc, reduceIte] at h <;>
    split at h <;>
    simp only [OutA.world, Option.some.injEq] at h <;>
    subst h <;>
    simp_all

theorem tryBody_localHash (cfg : FixedCfg) (env : NetEnvA) (recur : WorldA → OutA)
    (hrec : ∀ w₁ w₂, (recur w₁).world = some w₂ →
      w₁.localHash.isSome = true → w₂.localHash.isSome = true)
    (w w' : WorldA) (h : (tryBody cfg env recur w).world = some w') :
    w.localHash.isSome = true → w'.localHash.isSome = true := by
  intro hw
  simp only [tryBody] at h
  split at h
  · -- successful retrieval: the file now exists with the fresh hash
    split at h
    · -- mismatch: a recursive call ran; its final world keeps the file
      split at h <;> rename_i hrecEq <;>
        simp only [OutA.world, Option.some.injEq] at h
      · subst h
        exact hrec _ _ (by rw [hrecEq]; rfl) (by simp)
      · subst h
        exact hrec _ _ (by rw [hrecEq]; rfl) (by simp)
      · exact absurd h (by simp)
    · simp only [OutA.world, Option.some.injEq] at h; subst h; simp
  · simp only [OutA.world, Option.some.injEq] at h; subst h; simpa using hw

theorem applyHandler_localHash (cfg : FixedCfg) (env : NetEnvA) (out : OutA)
    (hout : ∀ w₂, out.world = some w₂ → w₂.localHash.isSome = true)
    (w' : WorldA) (h : (applyHandler cfg env out).world = some w') :
    w'.localHash.isSome = true := by
  simp only [applyHandler] at h
  split at h
  · exact hout w' h
  · split at h
    · rename_i w₂
      exact credDL_localHash env _ _ w₂ w' h (hout w₂ rfl)
    · rename_i w₂
      simp only [OutA.world, Option.some.injEq] at h; subst h
      exact hout w₂ rfl
    · rename_i w₂
      simp only [OutA.world, Option.some.injEq] at h; subst h
      exact hout w₂ rfl
    · exact hout w' h
  · split at h
    · rename_i w₂
      simp only [OutA.world, Option.some.injEq] at h; subst h
      exact hout w₂ rfl
    · exact hout w' h

theorem fetchFixed_localHash (cfg : FixedCfg) (env : NetEnvA) :
    ∀ (n dr : Nat) (w : WorldA) (flag : Option Nat) (w' : WorldA),
    (fetchFixed cfg env n dr w flag).world = some w' →
    w.localHash.isSome = true → w'.localHash.isSome = true := by
  intro n
  induction n with
  | zero => intro dr w flag w' h _; simp [fetchFixed, OutA.world] at h
  | succ n ih =>
    intro dr w flag w' h hw
    have hrec : ∀ w₁ w₂, (fetchFixed cfg env n dr w₁ (some 1)).world = some w₂ →
        w₁.localHash.isSome = true → w₂.localHash.isSome = true :=
      fun w₁ w₂ h₁ h₂ => ih dr w₁ (some 1) w₂ h₁ h₂
    simp only [fetchFixed] at h
    split at h
    · simp only [OutA.world, Option.some.injEq] at h; subst h; exact hw
    · split at h
      · rename_i out hst
        split at hst
        · -- integrity check ran
          simp only [integrityStep] at hst
          split at hst
          · rename_i checksum hsome
            split at hst
            · rcases hout : fetchFixed cfg env n dr
                  { w with log := w.log ++ [NetOp.recurse] } (some 1) with _ | _ | _ <;>
                rw [hout] at hst <;> simp only at hst
              · cases hst
              · cases hst
                simp only [OutA.world, Option.some.injEq] at h; subst h
                exact hrec _ _ (by rw [hout]; simp [OutA.world]) (by simpa using hw)
              · cases hst; simp [OutA.world] at h
            · cases hst
          · cases hst
        · cases hst
      · rename_i w₁ hst
        have hw₁ : w₁.localHash.isSome = true := by
          split at hst
          · simp only [integrityStep] at hst
            split at hst
            · rename_i checksum hsome
              split at hst
              · rcases hout : fetchFixed cfg env n dr
                    { w with log := w.log ++ [NetOp.recurse] } (some 1) with _ | _ | _ <;>
                  rw [hout] at hst <;> simp only at hst
                · cases hst
                  exact hrec _ _ (by rw [hout]; simp [OutA.world]) (by simpa using hw)
                · cases hst
                · cases hst
              · cases hst; exact hw
            · cases hst; exact hw
          · cases hst; exact hw
        split at h
        · exact applyHandler_localHash cfg env _
            (fun w₂ h₂ => tryBody_localHash cfg env _ hrec w₁ w₂ h₂ hw₁) w' h
        · simp only [OutA.world, Option.some.injEq] at h; subst h; exact hw₁

theorem credDL_log (env : NetEnvA) (url f : String) (w w' : WorldA)
    (h : (credDL env url f w).world = some w') :
    ∀ op ∈ w'.log, op ∈ w.log ∨ op = NetOp.retrieve url := by
  rcases hc : w.creds with _ | c <;>
    simp only [credDL, hc, reduceIte] at h <;>
    split at h <;>
    simp only [OutA.world, Option.some.injEq] at h <;>
    subst h <;>
    intro op hop <;>
    simpa using List.mem_append.mp hop

theorem tryBody_log (cfg : FixedCfg) (env : NetEnvA) (recur : WorldA → OutA)
    (hrec : ∀ w₁ w₂, (recur w₁).world = some w₂ → ∀ op ∈ w₂.log,
      op ∈ w₁.log ∨ op = NetOp.retrieve cfg.url ∨ op = NetOp.recurse)
    (w w' : WorldA) (h : (tryBody cfg env recur w).world = some w') :
    ∀ op ∈ w'.log, op ∈ w.log ∨ op = NetOp.retrieve cfg.url ∨ op = NetOp.recurse := by
  simp only [tryBody] at h
  split at h
  · split at h
    · split at h <;> rename_i hrecEq <;>
        simp only [OutA.world, Option.some.injEq] at h
      · subst h
        intro op hop
        rcases hrec _ _ (by rw [hrecEq]; rfl) op hop with hin | hu
        · simp only [List.mem_append, List.mem_singleton] at hin
          rcases hin with (hin | rfl) | rfl
          · exact .inl hin
          · exact .inr (.inl rfl)
          · exact .inr (.inr rfl)
        · exact .inr hu
      · subst h
        intro op hop
        rcases hrec _ _ (by rw [hrecEq]; rfl) op hop with hin | hu
        · simp only [List.mem_append, List.mem_singleton] at hin
          rcases hin with (hin | rfl) | rfl
          · exact .inl hin
          · exact .inr (.inl rfl)
          · exact .inr (.inr rfl)
        · exact .inr hu
      · exact absurd h (by simp)
    · simp only [OutA.world, Option.some.injEq] at h; subst h
      intro op hop
      rcases List.mem_append.mp hop with hin | hu
      · exact .inl hin
      · exact .inr (.inl (List.mem_singleton.mp hu))
  · simp only [OutA.world, Option.some.injEq] at h; subst h
    intro op hop
    rcases List.mem_append.mp hop with hin | hu
    · exact .inl hin
    · exact .inr (.inl (List.mem_singleton.mp hu))

theorem applyHandler_log (cfg : FixedCfg) (env : NetEnvA) (out : OutA) (w : WorldA)
    (hout : ∀ w₂, out.world = some w₂ → ∀ op ∈ w₂.log,
      op ∈ w.log ∨ op = NetOp.retrieve cfg.url ∨ op = NetOp.recurse)
    (w' : WorldA) (h : (applyHandler cfg env out).world = some w') :
    ∀ op ∈ w'.log, op ∈ w.log ∨ op = NetOp.retrieve cfg.url ∨ op = NetOp.recurse := by
  simp only [applyHandler] at h
  split at h
  · exact hout w' h
  · split at h
    · rename_i w₂
      intro op hop
      rcases credDL_log env cfg.url cfg.fullfilename w₂ w' h op hop with hin | rfl
      · exact hout w₂ rfl op hin
      · exact .inr (.inl rfl)
    · rename_i w₂
      simp only [OutA.world, Option.some.injEq] at h; subst h
      exact hout w₂ rfl
    · rename_i w₂
      simp only [OutA.world, Option.some.injEq] at h; subst h
      exact hout w₂ rfl
    · exact hout w' h
  · split at h
    · rename_i w₂
      simp only [OutA.world, Option.some.injEq] at h; subst h
      exact hout w₂ rfl
    · exact hout w' h

/-- Every operation in the final log of a fixed-checksum call was already in
    the starting log, or is a retrieval of the function's one hard-coded URL
    (or the recursion marker): no other network endpoint is ever touched. -/
theorem fetchFixed_log (cfg : FixedCfg) (env : NetEnvA) :
    ∀ (n dr : Nat) (w : WorldA) (flag : Option Nat) (w' : WorldA),
    (fetchFixed cfg env n dr w flag).world = some w' →
    ∀ op ∈ w'.log, op ∈ w.log ∨ op = NetOp.retrieve cfg.url ∨ op = NetOp.recurse := by
  intro n
  induction n with
  | zero => intro dr w flag w' h; simp [fetchFixed, OutA.world] at h
  | succ n ih =>
    intro dr w flag w' h
    have hrec : ∀ w₁ w₂, (fetchFixed cfg env n dr w₁ (some 1)).world = some w₂ →
        ∀ op ∈ w₂.log, op ∈ w₁.log ∨ op = NetOp.retrieve cfg.url ∨ op = NetOp.recurse :=
      fun w₁ w₂ h₁ => ih dr w₁ (some 1) w₂ h₁
    -- the world handed to phase 2 only adds allowed operations
    have hstep : ∀ w₁, (if w.localHash.isSome && flag.isNone
          then integrityStep cfg (fun w₂ => fetchFixed cfg env n dr w₂ (some 1)) w
          else .inr w) = Sum.inr w₁ →
        ∀ op ∈ w₁.log, op ∈ w.log ∨ op = NetOp.retrieve cfg.url ∨ op = NetOp.recurse := by
      intro w₁ hst op hop
      split at hst
      · simp only [integrityStep] at hst
        split at hst
        · split at hst
          · split at hst <;> rename_i hrecEq <;> cases hst
            rcases hrec _ _ (by rw [hrecEq]; rfl) op hop with hin | hu
            · simp only [List.mem_append, List.mem_singleton] at hin
              rcases hin with hin | rfl
              · exact .inl hin
              · exact .inr (.inr rfl)
            · exact .inr hu
          · cases hst; exact .inl hop
        · cases hst; exact .inl hop
      · cases hst; exact .inl hop
    simp only [fetchFixed] at h
    split at h
    · simp only [OutA.world, Option.some.injEq] at h; subst h
      intro op hop; exact .inl hop
    · split at h
      · rename_i out hst
        split at hst
        · simp only [integrityStep] at hst
          split at hst
          · split at hst
            · split at hst <;> rename_i hrecEq <;> cases hst
              · intro op hop
                rcases hrec _ _ (by rw [hrecEq]; simpa [OutA.world] using h) op
                    (by simp only [OutA.world, Option.some.injEq] at h; subst h; exact hop)
                  with hin | hu
                · simp only [List.mem_append, List.mem_singleton] at hin
                  rcases hin with hin | rfl
                  · exact .inl hin
                  · exact .inr (.inr rfl)
                · exact .inr hu
              · simp [OutA.world] at h
            · cases hst
          · cases hst
        · cases hst
      · rename_i w₁ hst
        split at h
        · exact applyHandler_log cfg env _ w
            (fun w₂ h₂ op hop =>
              (tryBody_log cfg env _ hrec w₁ w₂ h₂ op hop).elim
                (fun hin => hstep w₁ hst op hin) Or.inr)
            w' h
        · simp only [OutA.world, Option.some.injEq] at h; subst h
          exact hstep w₁ hst

/-! ## Non-divergence under a validity assumption -/

/-- The assumption the corruption-recovery relies on: every successful
    retrieval writes content whose sha1 equals the hard-coded (lower-cased)
    checksum. -/
def GoodEnvA (cfg : FixedCfg) (env : NetEnvA) : Prop :=
  ∀ i c h, env.net i c = Resp.ok h → h = lowerStr cfg.fileHash

theorem applyHandler_ne_diverge (cfg : FixedCfg) (env : NetEnvA) (out : OutA)
    (hout : out ≠ .diverge) : applyHandler cfg env out ≠ .diverge := by
  simp only [applyHandler]
  split
  · exact hout
  · split
    · exact credDL_ne_diverge env _ _ _
    · simp
    · simp
    · exact hout
  · split
    · simp
    · exact hout

theorem tryBody_ne_diverge_good (cfg : FixedCfg) (env : NetEnvA)
    (hgood : GoodEnvA cfg env) (recur : WorldA → OutA) (w : WorldA) :
    tryBody cfg env recur w ≠ .diverge := by
  simp only [tryBody]
  split
  · rename_i hstr hnet
    rw [if_neg (by simpa using hgood _ _ _ hnet)]
    simp
  · simp

@[simp] theorem flagIsOne_some_one : flagIsOne (some 1) = true := rfl

@[simp] theorem flagIsOne_none : flagIsOne none = false := rfl

/-- With `flag=1` and one unit of fuel, a validity-respecting environment
    never exhausts the fuel: the forced re-download verifies cleanly, so the
    recursion stops. -/
theorem fetchFixed_flag1_ne_diverge (cfg : FixedCfg) (env : NetEnvA)
    (hgood : GoodEnvA cfg env) (dr : Nat) (w : WorldA) :
    fetchFixed cfg env 1 dr w (some 1) ≠ .diverge := by
  simp only [fetchFixed]
  split
  · simp
  · simp only [Option.isNone_some, Bool.and_false, Bool.false_eq_true, reduceIte,
      Bool.not_false, Bool.or_true, Bool.true_and, flagIsOne_some_one]
    exact applyHandler_ne_diverge cfg env _ (tryBody_ne_diverge_good cfg env hgood _ _)

/-- One step of the skeleton cannot exhaust the fuel if the recursive call
    it might make cannot. -/
theorem fetchFixed_succ_ne_diverge (cfg : FixedCfg) (env : NetEnvA)
    (hgood : GoodEnvA cfg env) (n dr : Nat)
    (hne : ∀ w', fetchFixed cfg env n dr w' (some 1) ≠ .diverge)
    (w : WorldA) (flag : Option Nat) :
    fetchFixed cfg env (n + 1) dr w flag ≠ .diverge := by
  simp only [fetchFixed]
  split
  · simp
  · split
    · rename_i out hst
      split at hst
      · simp only [integrityStep] at hst
        split at hst
        · split at hst
          · split at hst <;> rename_i hrecEq <;> cases hst
            · simp
            · exact absurd hrecEq (hne _)
          · cases hst
        · cases hst
      · cases hst
    · split
      · exact applyHandler_ne_diverge cfg env _ (tryBody_ne_diverge_good cfg env hgood _ _)
      · simp

/-- Two units of fuel always suffice under the validity assumption: the
    corruption-recovery recursion has depth at most one. -/
theorem fetchFixed_fuel2_ne_diverge (cfg : FixedCfg) (env : NetEnvA)
    (hgood : GoodEnvA cfg env) (dr : Nat) (w : WorldA) (flag : Option Nat) :
    fetchFixed cfg env 2 dr w flag ≠ .diverge :=
  fetchFixed_succ_ne_diverge cfg env hgood 1 dr
    (fun w' => fetchFixed_flag1_ne_diverge cfg env hgood dr w') w flag

/-! ## Unbounded recursion without the validity assumption -/

/-- A network that always serves content hashing to a wrong value. -/
def envBadA : NetEnvA :=
  ⟨fun _ _ => .ok "0000000000000000000000000000000000000000", ⟨"user", "pw"⟩⟩

theorem applyHandler_diverge (cfg : FixedCfg) (env : NetEnvA) :
    applyHandler cfg env .diverge = .diverge := by
  simp only [applyHandler]
  split <;> rfl

theorem tryBody_bad_diverge (recur : WorldA → OutA)
    (hrec : ∀ w', recur w' = .diverge) (w : WorldA) :
    tryBody (allstarCfg "astroNN") envBadA recur w = .diverge := by
  simp only [tryBody, envBadA]
  rw [if_pos (by decide)]
  rw [hrec]

/-- With an always-corrupting network, no amount of fuel lets a forced
    (`flag=1`) `allstar` call finish: every re-download mismatches and
    recurses again. -/
theorem allstar_bad_flag1_diverge :
    ∀ (n : Nat) (w : WorldA),
      fetchFixed (allstarCfg "astroNN") envBadA n 17 w (some 1) = .diverge := by
  intro n
  induction n with
  | zero => intro w; rfl
  | succ n ih =>
    intro w
    simp only [fetchFixed, ne_eq, not_true, if_false, Option.isNone_some, Bool.and_false,
      Bool.false_eq_true, reduceIte, Bool.not_false, Bool.or_true, Bool.true_and,
      flagIsOne_some_one]
    rw [tryBody_bad_diverge _ (fun w' => ih w') w, applyHandler_diverge]

/-- Starting from a corrupted local file, the plain (`flag=None`) `allstar`
    call diverges for every fuel bound: the recursion is unbounded. -/
theorem allstar_bad_corrupt_diverge :
    ∀ (n : Nat),
      fetchFixed (allstarCfg "astroNN") envBadA n 17
        ⟨some "ffff", none, [], 0⟩ none = .diverge := by
  intro n
  cases n with
  | zero => rfl
  | succ n =>
    simp only [fetchFixed, ne_eq, reduceIte]
    have h1 : integrityStep (allstarCfg "astroNN")
        (fun w' => fetchFixed (allstarCfg "astroNN") envBadA n 17 w' (some 1))
        ⟨some "ffff", none, [], 0⟩ = Sum.inl OutA.diverge := by
      simp only [integrityStep]
      rw [if_pos (by decide), allstar_bad_flag1_diverge n]
    rw [show (Option.isSome (some "ffff") && Option.isNone (none : Option Nat)) = true from rfl]
    rw [if_pos rfl, h1]
    simp

/-! ## Shape and invariant lemmas for the manifest-based skeleton -/

theorem recurseDesc_idem (d : MDesc) : recurseDesc (recurseDesc d) = recurseDesc d := rfl

theorem credDLB_ret_shape (env : NetEnvB) (url f : String) (w : WorldB) (v : RVal)
    (w' : WorldB) (h : credDLB env url f w = .ret v w') :
    v = .path f ∨ v = .flagFalse := by
  rcases hc : w.creds with _ | c <;>
    simp only [credDLB, hc, reduceIte] at h <;>
    split at h <;> simp_all

theorem credDLB_ne_diverge (env : NetEnvB) (url f : String) (w : WorldB) :
    credDLB env url f w ≠ .diverge := by
  rcases hc : w.creds with _ | c <;>
    simp only [credDLB, hc, reduceIte] <;>
    split <;> simp

theorem checkHashM_ret_shape (fname : String) (fileHash : List String)
    (recur : WorldB → OutB) (checksum : String) (w : WorldB) (v : RVal) (w' : WorldB)
    (h : checkHashM fname fileHash recur checksum w = .ret v w') : v = .path fname := by
  simp only [checkHashM] at h
  split at h
  · simp_all
  · split at h <;> simp_all
  · simp_all

theorem tryBodyM_ret_shape (env : NetEnvB) (url fname : String) (fileHash : List String)
    (recur : WorldB → OutB) (w : WorldB) (v : RVal) (w' : WorldB)
    (h : tryBodyM env url fname fileHash recur w = .ret v w') : v = .path fname := by
  simp only [tryBodyM] at h
  split at h
  · exact checkHashM_ret_shape _ _ _ _ _ _ _ h
  · simp_all

theorem handlerM_ret_shape (env : NetEnvB) (url fname : String) (out : OutB)
    (hout : ∀ v₁ w₁, out = OutB.ret v₁ w₁ → v₁ = .path fname)
    (v : RVal) (w' : WorldB) (h : handlerM env url fname out = .ret v w') :
    v = .path fname ∨ v = .flagFalse := by
  simp only [handlerM] at h
  split at h
  · rcases credDLB_ret_shape _ _ _ _ _ _ h with h' | h'
    · exact .inl h'
    · exact .inr h'
  · simp_all
  · simp_all
  · exact .inl (hout v w' h)

theorem manifestStep_inl_shape (k : MKind) (root : String) (env : NetEnvB) (d : MDesc)
    (w : WorldB) (out : OutB) (h : manifestStep k root env d w = .inl out) :
    (∀ v₁ w₁, out = OutB.ret v₁ w₁ → v₁ = .flagFalse) := by
  intro v₁ w₁ hret
  simp only [manifestStep] at h
  split at h
  · simp_all
  · split at h
    · split at h
      · simp_all
      · cases h; simp_all
    · cases h; simp_all

/-- Every value a manifest-based download function returns normally is either
    the computed full file path or the `warning_flag = False` sentinel. -/
theorem fetchM_ret_shape (k : MKind) (root : String) (env : NetEnvB) (n : Nat)
    (d : MDesc) (flag : Option Nat) (w : WorldB) (v : RVal) (w' : WorldB)
    (h : fetchM k root env n d flag w = .ret v w') :
    v = .path (mFullfilename k root d) ∨ v = .flagFalse := by
  cases n with
  | zero => simp [fetchM] at h
  | succ n =>
    simp only [fetchM] at h
    split at h
    · simp_all
    · split at h
      · rename_i out hst
        exact .inr (manifestStep_inl_shape k root env d w out hst v w' (by rw [h]))
      · split at h
        · split at h
          · exact .inl (checkHashM_ret_shape _ _ _ _ _ _ _ h)
          · simp_all
        · split at h
          · exact handlerM_ret_shape env _ _ _
              (fun v₁ w₁ h₁ => tryBodyM_ret_shape env _ _ _ _ _ v₁ w₁ h₁) v w' h
          · simp_all

/-- The network endpoints a `combined_spectra`/`visit_spectra` call may
    touch, as determined by its arguments alone: its own data URL, manifest
    URL and directory listing, and those of the recursive-call descriptor
    (`field`/`telescope` dropped). -/
def mAllowed (k : MKind) (d : MDesc) (op : NetOp) : Prop :=
  op = NetOp.recurse ∨
  op = NetOp.retrieve (mUrl k d) ∨
  op = NetOp.retrieve (mManifestUrl k d) ∨
  op = NetOp.openUrl (mStr1 k d) ∨
  op = NetOp.retrieve (mUrl k (recurseDesc d)) ∨
  op = NetOp.retrieve (mManifestUrl k (recurseDesc d)) ∨
  op = NetOp.openUrl (mStr1 k (recurseDesc d))

theorem mAllowed_recurse (k : MKind) (d : MDesc) (op : NetOp)
    (h : mAllowed k (recurseDesc d) op) : mAllowed k d op := by
  simp only [mAllowed, recurseDesc_idem] at h ⊢
  tauto

theorem credDLB_log (env : NetEnvB) (url f : String) (w w' : WorldB)
    (h : (credDLB env url f w).world = some w') :
    ∀ op ∈ w'.log, op ∈ w.log ∨ op = NetOp.retrieve url := by
  rcases hc : w.creds with _ | c <;>
    simp only [credDLB, hc, reduceIte] at h <;>
    split at h <;>
    simp only [OutB.world, Option.some.injEq] at h <;>
    subst h <;>
    intro op hop <;>
    simpa using List.mem_append.mp hop

theorem checkHashM_log (P : NetOp → Prop) (hPrec : P NetOp.recurse)
    (fname : String) (fileHash : List String) (recur : WorldB → OutB)
    (hrec : ∀ w₁ w₂, (recur w₁).world = some w₂ → ∀ op ∈ w₂.log,
      op ∈ w₁.log ∨ P op) (checksum : String) (w w' : WorldB)
    (h : (checkHashM fname fileHash recur checksum w).world = some w') :
    ∀ op ∈ w'.log, op ∈ w.log ∨ P op := by
  simp only [checkHashM] at h
  split at h
  · simp only [OutB.world, Option.some.injEq] at h; subst h
    exact fun op hop => .inl hop
  · split at h <;> rename_i hrecEq <;>
      simp only [OutB.world, Option.some.injEq] at h
    · subst h
      intro op hop
      rcases hrec _ _ (by rw [hrecEq]; rfl) op hop with hin | hP
      · simp only [List.mem_append, List.mem_singleton] at hin
        rcases hin with hin | rfl
        · exact .inl hin
        · exact .inr hPrec
      · exact .inr hP
    · subst h
      intro op hop
      rcases hrec _ _ (by rw [hrecEq]; rfl) op hop with hin | hP
      · simp only [List.mem_append, List.mem_singleton] at hin
        rcases hin with hin | rfl
        · exact .inl hin
        · exact .inr hPrec
      · exact .inr hP
    · exact absurd h (by simp)
  · simp only [OutB.world, Option.some.injEq] at h; subst h
    exact fun op hop => .inl hop

theorem tryBodyM_log (P : NetOp → Prop) (hPrec : P NetOp.recurse)
    (env : NetEnvB) (url fname : String) (hPurl : P (NetOp.retrieve url))
    (fileHash : List String) (recur : WorldB → OutB)
    (hrec : ∀ w₁ w₂, (recur w₁).world = some w₂ → ∀ op ∈ w₂.log,
      op ∈ w₁.log ∨ P op) (w w' : WorldB)
    (h : (tryBodyM env url fname fileHash recur w).world = some w') :
    ∀ op ∈ w'.log, op ∈ w.log ∨ P op := by
  simp only [tryBodyM] at h
  split at h
  · intro op hop
    rcases checkHashM_log P hPrec fname fileHash recur hrec _ _ w' h op hop with hin | hP
    · simp only [List.mem_append, List.mem_singleton] at hin
      rcases hin with hin | rfl
      · exact .inl hin
      · exact .inr hPurl
    · exact .inr hP
  · simp only [OutB.world, Option.some.injEq] at h; subst h
    intro op hop
    rcases List.mem_append.mp hop with hin | hu
    · exact .inl hin
    · exact .inr (List.mem_singleton.mp hu ▸ hPurl)

theorem handlerM_log (P : NetOp → Prop) (env : NetEnvB) (url fname : String)
    (hPurl : P (NetOp.retrieve url)) (out : OutB) (w : WorldB)
    (hout : ∀ w₂, out.world = some w₂ → ∀ op ∈ w₂.log, op ∈ w.log ∨ P op)
    (w' : WorldB) (h : (handlerM env url fname out).world = some w') :
    ∀ op ∈ w'.log, op ∈ w.log ∨ P op := by
  simp only [handlerM] at h
  split at h
  · rename_i w₂
    intro op hop
    rcases credDLB_log env url fname w₂ w' h op hop with hin | rfl
    · exact hout w₂ rfl op hin
    · exact .inr hPurl
  · rename_i w₂
    simp only [OutB.world, Option.some.injEq] at h; subst h
    exact hout w₂ rfl
  · rename_i w₂
    simp only [OutB.world, Option.some.injEq] at h; subst h
    exact hout w₂ rfl
  · exact hout w' h

theorem manifestStep_log_inr (k : MKind) (root : String) (env : NetEnvB) (d : MDesc)
    (w : WorldB) (rows : List (String × String)) (w₁ : WorldB)
    (h : manifestStep k root env d w = .inr (rows, w₁)) :
    ∀ op ∈ w₁.log, op ∈ w.log ∨ op = NetOp.openUrl (mStr1 k d) ∨
      op = NetOp.retrieve (mManifestUrl k d) := by
  simp only [manifestStep] at h
  split at h
  · cases h
    exact fun op hop => .inl hop
  · split at h
    · split at h
      · cases h
        intro op hop
        simp only [List.append_assoc, List.mem_append, List.mem_singleton] at hop
        rcases hop with hin | rfl | rfl
        · exact .inl hin
        · exact .inr (.inl rfl)
        · exact .inr (.inr rfl)
      · cases h
    · cases h

theorem manifestStep_log_inl (k : MKind) (root : String) (env : NetEnvB) (d : MDesc)
    (w : WorldB) (out : OutB) (h : manifestStep k root env d w = .inl out)
    (w' : WorldB) (hw : out.world = some w') :
    ∀ op ∈ w'.log, op ∈ w.log ∨ op = NetOp.openUrl (mStr1 k d) ∨
      op = NetOp.retrieve (mManifestUrl k d) := by
  simp only [manifestStep] at h
  split at h
  · cases h
  · split at h
    · split at h
      · cases h
      · cases h
        simp only [OutB.world, Option.some.injEq] at hw; subst hw
        intro op hop
        simp only [List.append_assoc, List.mem_append, List.mem_singleton] at hop
        rcases hop with hin | rfl | rfl
        · exact .inl hin
        · exact .inr (.inl rfl)
        · exact .inr (.inr rfl)
    · cases h
      simp only [OutB.world, Option.some.injEq] at hw; subst hw
      intro op hop
      simp only [List.mem_append, List.mem_singleton] at hop
      rcases hop with hin | rfl
      · exact .inl hin
      · exact .inr (.inl rfl)

/-- Every operation in the final log of a `combined_spectra`/`visit_spectra`
    call was already in the starting log, or addresses one of the URLs
    determined by the call's own arguments (`mAllowed`). -/
theorem fetchM_log (k : MKind) (root : String) (env : NetEnvB) :
    ∀ (n : Nat) (d : MDesc) (flag : Option Nat) (w : WorldB) (w' : WorldB),
    (fetchM k root env n d flag w).world = some w' →
    ∀ op ∈ w'.log, op ∈ w.log ∨ mAllowed k d op := by
  intro n
  induction n with
  | zero => intro d flag w w' h; simp [fetchM, OutB.world] at h
  | succ n ih =>
    intro d flag w w' h
    have hrecP : ∀ w₁ w₂, (fetchM k root env n (recurseDesc d) (some 1) w₁).world = some w₂ →
        ∀ op ∈ w₂.log, op ∈ w₁.log ∨ mAllowed k d op := by
      intro w₁ w₂ h₁ op hop
      rcases ih (recurseDesc d) (some 1) w₁ w₂ h₁ op hop with hin | hal
      · exact .inl hin
      · exact .inr (mAllowed_recurse k d op hal)
    simp only [fetchM] at h
    split at h
    · simp only [OutB.world, Option.some.injEq] at h; subst h
      exact fun op hop => .inl hop
    · split at h
      · rename_i out hst
        intro op hop
        rcases manifestStep_log_inl k root env d w out hst w' h op hop with hin | hal
        · exact .inl hin
        · right
          rcases hal with rfl | rfl <;> simp [mAllowed]
      · rename_i rows w₁ hst
        have hw₁ : ∀ op ∈ w₁.log, op ∈ w.log ∨ mAllowed k d op := by
          intro op hop
          rcases manifestStep_log_inr k root env d w rows w₁ hst op hop with hin | hal
          · exact .inl hin
          · right
            rcases hal with rfl | rfl <;> simp [mAllowed]
        split at h
        · split at h
          · intro op hop
            rcases checkHashM_log (mAllowed k d) (by simp [mAllowed]) _ _ _ hrecP _ w₁ w' h
                op hop with hin | hal
            · exact hw₁ op hin
            · exact .inr hal
          · simp only [OutB.world, Option.some.injEq] at h; subst h; exact hw₁
        · split at h
          · intro op hop
            rcases handlerM_log (mAllowed k d) env (mUrl k d) _ (by simp [mAllowed]) _ w₁
                (fun w₂ h₂ => tryBodyM_log (mAllowed k d) (by simp [mAllowed]) env (mUrl k d)
                  _ (by simp [mAllowed]) _ _ hrecP w₁ w₂ h₂) w' h op hop with hin | hal
            · exact hw₁ op hin
            · exact .inr hal
          · simp only [OutB.world, Option.some.injEq] at h; subst h; exact hw₁

/-! ## Non-divergence of the manifest-based skeleton -/

/-- The validity assumption for the manifest-based functions: content a
    successful retrieval of the re-fetch URL (the one with `field` and
    `telescope` dropped) writes always passes the manifest checksum test,
    whichever manifest applies. -/
def GoodEnvB (k : MKind) (d : MDesc) (env : NetEnvB) : Prop :=
  ∀ i c h rows, env.net i c (mUrl k (recurseDesc d)) = Resp.ok h →
    mismatchCond h (mSelect k (recurseDesc d) rows) ≠ Except.ok true

theorem handlerM_ne_diverge (env : NetEnvB) (url fname : String) (out : OutB)
    (hout : out ≠ .diverge) : handlerM env url fname out ≠ .diverge := by
  simp only [handlerM]
  split
  · exact credDLB_ne_diverge env _ _ _
  · simp
  · simp
  · exact hout

theorem checkHashM_ne_diverge_nomis (fname : String) (fileHash : List String)
    (recur : WorldB → OutB) (checksum : String) (w : WorldB)
    (hmis : mismatchCond checksum fileHash ≠ Except.ok true) :
    checkHashM fname fileHash recur checksum w ≠ .diverge := by
  simp only [checkHashM]
  split
  · simp
  · rename_i hc
    exact absurd hc hmis
  · simp

theorem checkHashM_ne_diverge_rec (fname : String) (fileHash : List String)
    (recur : WorldB → OutB) (checksum : String) (w : WorldB)
    (hrec : ∀ w₁, recur w₁ ≠ .diverge) :
    checkHashM fname fileHash recur checksum w ≠ .diverge := by
  simp only [checkHashM]
  split
  · simp
  · split
    · simp
    · simp
    · rename_i hd
      exact absurd hd (hrec _)
  · simp

theorem tryBodyM_ne_diverge_rec (env : NetEnvB) (url fname : String)
    (fileHash : List String) (recur : WorldB → OutB) (w : WorldB)
    (hrec : ∀ w₁, recur w₁ ≠ .diverge) :
    tryBodyM env url fname fileHash recur w ≠ .diverge := by
  simp only [tryBodyM]
  split
  · exact checkHashM_ne_diverge_rec _ _ _ _ _ hrec
  · simp

theorem tryBodyM_ne_diverge_good (k : MKind) (d : MDesc) (env : NetEnvB)
    (hgood : GoodEnvB k d env) (fname : String) (rows : List (String × String))
    (recur : WorldB → OutB) (w : WorldB) :
    tryBodyM env (mUrl k (recurseDesc d)) fname (mSelect k (recurseDesc d) rows)
      recur w ≠ .diverge := by
  simp only [tryBodyM]
  split
  · rename_i hstr hnet
    exact checkHashM_ne_diverge_nomis _ _ _ _ _ (hgood _ _ _ rows hnet)
  · simp

theorem manifestStep_inl_ne_diverge (k : MKind) (root : String) (env : NetEnvB)
    (d : MDesc) (w : WorldB) (out : OutB)
    (h : manifestStep k root env d w = .inl out) : out ≠ .diverge := by
  simp only [manifestStep] at h
  split at h
  · cases h
  · split at h
    · split at h
      · cases h
      · cases h; simp
    · cases h; simp

/-- With `flag=1` and one unit of fuel, a validity-respecting environment
    never exhausts the fuel on the re-fetch descriptor. -/
theorem fetchM_flag1_ne_diverge (k : MKind) (root : String) (env : NetEnvB)
    (d : MDesc) (hgood : GoodEnvB k d env) (w : WorldB) :
    fetchM k root env 1 (recurseDesc d) (some 1) w ≠ .diverge := by
  simp only [fetchM]
  split
  · simp
  · split
    · rename_i out hst
      exact manifestStep_inl_ne_diverge k root env _ w out hst
    · rename_i rows w₁ hst
      simp only [Option.isNone_some, Bool.and_false, Bool.false_eq_true, reduceIte,
        flagIsOne_some_one, Bool.or_true]
      exact handlerM_ne_diverge env _ _ _
        (tryBodyM_ne_diverge_good k d env hgood _ rows _ w₁)

/-- One step of the skeleton cannot exhaust the fuel if the recursive call
    it might make cannot. -/
theorem fetchM_succ_ne_diverge (k : MKind) (root : String) (env : NetEnvB)
    (n : Nat) (d : MDesc)
    (hne : ∀ w', fetchM k root env n (recurseDesc d) (some 1) w' ≠ .diverge)
    (flag : Option Nat) (w : WorldB) :
    fetchM k root env (n + 1) d flag w ≠ .diverge := by
  simp only [fetchM]
  split
  · simp
  · split
    · rename_i out hst
      exact manifestStep_inl_ne_diverge k root env d w out hst
    · split
      · split
        · exact checkHashM_ne_diverge_rec _ _ _ _ _ hne
        · simp
      · split
        · exact handlerM_ne_diverge env _ _ _ (tryBodyM_ne_diverge_rec _ _ _ _ _ _ hne)
        · simp

/-- Two units of fuel always suffice under the validity assumption: the
    corruption-recovery recursion of the manifest-based functions has depth
    at most one. -/
theorem fetchM_fuel2_ne_diverge (k : MKind) (root : String) (env : NetEnvB)
    (d : MDesc) (hgood : GoodEnvB k d env) (flag : Option Nat) (w : WorldB) :
    fetchM k root env 2 d flag w ≠ .diverge :=
  fetchM_succ_ne_diverge k root env 1 d
    (fun w' => fetchM_flag1_ne_diverge k root env d hgood w') flag w

/-! ## Concrete scenarios used by counterexamples and witnesses -/

/-- `allstar` with the environment root `astroNN`. -/
def cfgAllstar : FixedCfg := allstarCfg "astroNN"

/-- A remote that answers every retrieval with HTTP 404. -/
def env404A : NetEnvA := ⟨fun _ _ => .e404, ⟨"user", "pw"⟩⟩

/-- A remote that answers every retrieval with HTTP 401. -/
def env401A : NetEnvA := ⟨fun _ _ => .e401, ⟨"user", "pw"⟩⟩

/-- A remote whose downloads always verify: every retrieval succeeds with
    the expected `allstar` checksum. -/
def envGoodAllstar : NetEnvA :=
  ⟨fun _ _ => .ok (lowerStr cfgAllstar.fileHash), ⟨"user", "pw"⟩⟩

/-- A remote whose first retrieval delivers corrupt content and whose second
    answers 404. -/
def envC3A : NetEnvA := ⟨fun i _ => if i = 0 then .ok "bad2" else .e404, ⟨"user", "pw"⟩⟩

/-- A corrupted local `allstar` file, no cached credentials. -/
def w0A : WorldA := ⟨some "bad", none, [], 0⟩

/-- No local file, no cached credentials. -/
def wEmptyA : WorldA := ⟨none, none, [], 0⟩

/-- No local file, credentials already cached. -/
def wCredsA : WorldA := ⟨none, some ⟨"alice", "secret"⟩, [], 0⟩

/-! ## Symbolic-execution helper lemmas

These lemmas run one unfolding of a skeleton under explicit branch
hypotheses; the claim theorems below assemble them. -/

/-- If the local file exists with a mismatching checksum and `flag is None`,
    the integrity check runs the recursive call, discards its returned value
    `v`, and the function then returns its own path with the recursive
    call's final world. -/
theorem fetchFixed_discard (cfg : FixedCfg) (env : NetEnvA) (n : Nat) (w : WorldA)
    (c : String) (v : RVal) (w₁ : WorldA)
    (hc : w.localHash = some c) (hne : c ≠ lowerStr cfg.fileHash)
    (hrec : fetchFixed cfg env n 17 { w with log := w.log ++ [NetOp.recurse] } (some 1) =
      .ret v w₁) :
    fetchFixed cfg env (n + 1) 17 w none = .ret (.path cfg.fullfilename) w₁ := by
  rw [hc] at hrec
  have hw₁ : w₁.localHash.isSome = true :=
    fetchFixed_localHash cfg env n 17 _ (some 1) w₁ (by rw [hrec]; rfl) (by simp)
  have hint : integrityStep cfg (fun w' => fetchFixed cfg env n 17 w' (some 1)) w =
      Sum.inr w₁ := by
    simp only [integrityStep, hc]
    rw [if_pos hne, hrec]
  simp only [fetchFixed]
  rw [if_neg (by simp)]
  have hb1 : (w.localHash.isSome && (none : Option Nat).isNone) = true := by simp [hc]
  rw [if_pos hb1, hint]
  simp only [flagIsOne_none, Bool.or_false, hw₁, Bool.not_true, Bool.and_false,
    Bool.false_eq_true, reduceIte]

/-- A forced (`flag=1`) fixed-checksum call against a remote whose downloads
    always verify performs exactly one retrieval and returns the path. -/
theorem fetchFixed_inner_good (cfg : FixedCfg) (env : NetEnvA)
    (hgood : ∀ i cr, env.net i cr = .ok (lowerStr cfg.fileHash)) (n : Nat) (w : WorldA) :
    fetchFixed cfg env (n + 1) 17 w (some 1) =
      .ret (.path cfg.fullfilename)
        ⟨some (lowerStr cfg.fileHash), w.creds, w.log ++ [NetOp.retrieve cfg.url],
         w.attempts + 1⟩ := by
  simp only [fetchFixed]
  rw [if_neg (by simp)]
  simp only [Option.isNone_some, Bool.and_false, Bool.false_eq_true, reduceIte,
    Bool.not_false, Bool.or_true, Bool.true_and, flagIsOne_some_one]
  simp only [tryBody, hgood]
  rw [if_neg (by simp)]
  simp only [applyHandler]
  split <;> rfl

/-- The download branch of a fixed-checksum call under a 401-only remote:
    the attempt raises, and the per-style handler sees exactly that
    exception. -/
theorem fetchFixed_401_body (cfg : FixedCfg) (env : NetEnvA) (n : Nat) (w : WorldA)
    (h401 : ∀ i c, env.net i c = .e401) (hw : w.localHash = none) :
    fetchFixed cfg env (n + 1) 17 w none =
      applyHandler cfg env
        (.raise (.httpError .e401)
          ⟨none, w.creds, w.log ++ [NetOp.retrieve cfg.url], w.attempts + 1⟩) := by
  simp only [fetchFixed]
  rw [if_neg (by simp)]
  simp only [hw, Option.isSome_none, Bool.false_and, Bool.false_eq_true, reduceIte,
    Bool.not_false, Bool.true_or, Bool.true_and, Bool.or_true, Bool.and_true,
    flagIsOne_none, Option.isNone_none, Bool.or_false]
  simp only [tryBody, h401, hw]

/-- The manifest-based analogue of `fetchFixed_discard`: cached manifest,
    local file present with a mismatching checksum, `flag is None` — the
    recursive call on the `field`/`telescope`-stripped descriptor runs, its
    value `v` is discarded, and the outer call returns its own path. -/
theorem fetchM_discard (k : MKind) (root : String) (env : NetEnvB) (n : Nat)
    (d : MDesc) (w : WorldB) (rows : List (String × String)) (c : String) (v : RVal)
    (w₁ : WorldB)
    (hdr : d.dr = 17)
    (hman : w.manifests.lookup (mHashPath k root d) = some rows)
    (hfile : w.files.lookup (mFullfilename k root d) = some c)
    (hmis : mismatchCond c (mSelect k d rows) = .ok true)
    (hrec : fetchM k root env n (recurseDesc d) (some 1)
      { w with log := w.log ++ [NetOp.recurse] } = .ret v w₁) :
    fetchM k root env (n + 1) d none w = .ret (.path (mFullfilename k root d)) w₁ := by
  simp only [fetchM]
  rw [if_neg (by simp [hdr])]
  have hms : manifestStep k root env d w = Sum.inr (rows, w) := by
    simp only [manifestStep, hman]
  rw [hms]
  dsimp only
  rw [if_pos (by simp [hfile])]
  rw [hfile]
  simp only [checkHashM, hmis, hrec]

/-- A forced (`flag=1`) manifest-based call whose manifest is cached and
    whose downloads always verify performs exactly one retrieval and
    returns the path. -/
theorem fetchM_inner_good (k : MKind) (root : String) (env : NetEnvB) (n : Nat)
    (dd : MDesc) (w : WorldB) (rows : List (String × String)) (g : String)
    (hdr : dd.dr = 17)
    (hman : w.manifests.lookup (mHashPath k root dd) = some rows)
    (hgood : ∀ i cr, env.net i cr (mUrl k dd) = .ok g)
    (hok : mismatchCond g (mSelect k dd rows) = .ok false) :
    fetchM k root env (n + 1) dd (some 1) w =
      .ret (.path (mFullfilename k root dd))
        ⟨(mFullfilename k root dd, g) :: w.files, w.manifests, w.creds,
         w.log ++ [NetOp.retrieve (mUrl k dd)], w.attempts + 1⟩ := by
  simp only [fetchM]
  rw [if_neg (by simp [hdr])]
  have hms : manifestStep k root env dd w = Sum.inr (rows, w) := by
    simp only [manifestStep, hman]
  rw [hms]
  simp only [Option.isNone_some, Bool.and_false, Bool.false_eq_true, reduceIte,
    Bool.not_false, Bool.or_true, Bool.true_and, flagIsOne_some_one]
  simp only [tryBodyM, hgood, checkHashM, hok]
  simp only [handlerM]

/-! ## Claim C1 -/

/-- C1, counterexample.  The first half of the claim holds, but the second
    does not: at this input the corruption-recovery recursive call of
    `allstar` returns the `warning_flag = False` sentinel (its re-download
    got a 404), while the outer call — which discards that value — returns
    the local path.  So the recursive call's value is *not* the outer call's
    return value. -/
theorem c1_counterexample :
    fetchFixed cfgAllstar env404A 3 17 w0A none =
      .ret (.path cfgAllstar.fullfilename)
        ⟨some "bad", none, [NetOp.recurse, NetOp.retrieve cfgAllstar.url], 1⟩ ∧
    fetchFixed cfgAllstar env404A 2 17 { w0A with log := w0A.log ++ [NetOp.recurse] }
        (some 1) =
      .ret .flagFalse
        ⟨some "bad", none, [NetOp.recurse, NetOp.retrieve cfgAllstar.url], 1⟩ ∧
    RVal.path cfgAllstar.fullfilename ≠ RVal.flagFalse :=
  ⟨by decide, by decide, by decide⟩

/-- C1, amended.  Every public download function returns either its computed
    local file path or the boolean-false sentinel — but the value of the
    corruption-recovery recursive call is *discarded*: when the integrity
    check triggers the recursion and the recursive call returns, whatever
    its value `v`, the outer call returns its own path (stated for the
    fixed-checksum skeleton; the manifest-based skeleton discards it the
    same way, cf. `fetchM_discard`). -/
theorem c1_amended :
    (∀ (cfg : FixedCfg) (env : NetEnvA) (n dr : Nat) (w : WorldA) (flag : Option Nat)
        (v : RVal) (w' : WorldA), fetchFixed cfg env n dr w flag = .ret v w' →
        v = .path cfg.fullfilename ∨ v = .flagFalse) ∧
    (∀ (k : MKind) (root : String) (env : NetEnvB) (n : Nat) (d : MDesc)
        (flag : Option Nat) (w : WorldB) (v : RVal) (w' : WorldB),
        fetchM k root env n d flag w = .ret v w' →
        v = .path (mFullfilename k root d) ∨ v = .flagFalse) ∧
    (∀ (cfg : FixedCfg) (env : NetEnvA) (n : Nat) (w : WorldA) (c : String) (v : RVal)
        (w₁ : WorldA), w.localHash = some c → c ≠ lowerStr cfg.fileHash →
        fetchFixed cfg env n 17 { w with log := w.log ++ [NetOp.recurse] } (some 1) =
          .ret v w₁ →
        fetchFixed cfg env (n + 1) 17 w none = .ret (.path cfg.fullfilename) w₁) ∧
    (∀ (k : MKind) (root : String) (env : NetEnvB) (n : Nat) (d : MDesc) (w : WorldB)
        (rows : List (String × String)) (c : String) (v : RVal) (w₁ : WorldB),
        d.dr = 17 →
        w.manifests.lookup (mHashPath k root d) = some rows →
        w.files.lookup (mFullfilename k root d) = some c →
        mismatchCond c (mSelect k d rows) = .ok true →
        fetchM k root env n (recurseDesc d) (some 1)
          { w with log := w.log ++ [NetOp.recurse] } = .ret v w₁ →
        fetchM k root env (n + 1) d none w = .ret (.path (mFullfilename k root d)) w₁) :=
  ⟨fetchFixed_ret_shape, fetchM_ret_shape,
   fun cfg env n w c v w₁ hc hne hrec => fetchFixed_discard cfg env n w c v w₁ hc hne hrec,
   fun k root env n d w rows c v w₁ hdr hman hfile hmis hrec =>
     fetchM_discard k root env n d w rows c v w₁ hdr hman hfile hmis hrec⟩

/-- Witness for C1 (amended): at a concrete corrupted-file input the
    recursive call returns the sentinel while the outer call returns the
    path, exactly as the amended claim predicts. -/
theorem c1_amended_witness :
    w0A.localHash = some "bad" ∧
    "bad" ≠ lowerStr cfgAllstar.fileHash ∧
    fetchFixed cfgAllstar env404A 2 17 { w0A with log := w0A.log ++ [NetOp.recurse] }
        (some 1) =
      .ret .flagFalse
        ⟨some "bad", none, [NetOp.recurse, NetOp.retrieve cfgAllstar.url], 1⟩ ∧
    fetchFixed cfgAllstar env404A 3 17 w0A none =
      .ret (.path cfgAllstar.fullfilename)
        ⟨some "bad", none, [NetOp.recurse, NetOp.retrieve cfgAllstar.url], 1⟩ :=
  ⟨rfl, by decide, by decide,
    c1_amended.2.2.1 cfgAllstar env404A 2 w0A "bad" .flagFalse
      ⟨some "bad", none, [NetOp.recurse, NetOp.retrieve cfgAllstar.url], 1⟩
      rfl (by decide) (by decide)⟩

/-! ## Claim C2 -/

/-- C2: the claim says every public download function turns an HTTP 404
    during the download into a warning plus the not-found sentinel, with no
    exception reaching the caller.  `allvisit` falsifies this for the code
    as written: its download is not wrapped in any `try`, so the `HTTPError`
    propagates — contradicting its own docstring ("False if cannot be found
    on server") and the handling in every sibling function (second conjunct:
    `allstar` at the same input returns the sentinel).  The claim describes
    the evident intent; the code is the slip. -/
theorem c2_allvisit_404_raises :
    fetchFixed (allvisitCfg "astroNN") env404A 2 17 wEmptyA none =
      .raise (.httpError .e404)
        ⟨none, none, [NetOp.retrieve (allvisitCfg "astroNN").url], 1⟩ ∧
    fetchFixed cfgAllstar env404A 2 17 wEmptyA none =
      .ret .flagFalse ⟨none, none, [NetOp.retrieve cfgAllstar.url], 1⟩ :=
  ⟨by decide, by decide⟩

/-! ## Claim C3 -/

/-- C3, counterexample.  Local file corrupt, first re-download delivers
    *again*-corrupt content, second answers 404: before the call returns,
    *two* recursive calls with `flag=1` and two downloads have run — not
    "exactly one re-fetch". -/
theorem c3_counterexample :
    fetchFixed cfgAllstar envC3A 4 17 w0A none =
      .ret (.path cfgAllstar.fullfilename)
        ⟨some "bad2", none,
         [NetOp.recurse, NetOp.retrieve cfgAllstar.url,
          NetOp.recurse, NetOp.retrieve cfgAllstar.url], 2⟩ ∧
    List.count NetOp.recurse
      [NetOp.recurse, NetOp.retrieve cfgAllstar.url,
       NetOp.recurse, NetOp.retrieve cfgAllstar.url] = 2 ∧
    List.count (NetOp.retrieve cfgAllstar.url)
      [NetOp.recurse, NetOp.retrieve cfgAllstar.url,
       NetOp.recurse, NetOp.retrieve cfgAllstar.url] = 2 :=
  ⟨by decide, by decide, by decide⟩

/-- C3, amended.  If the local file exists with a mismatching checksum,
    `flag` is `None`, *and the forced re-download succeeds with content
    matching the expected checksum*, then exactly one recursive call with
    `flag=1` performing exactly one download runs before the function
    returns the path: the final log extends the initial one by precisely
    `[recurse, retrieve url]`.  (Without that proviso the recursion repeats,
    as the counterexample shows.)  Stated for the fixed-checksum skeleton
    and for the manifest-based one with both manifests cached. -/
theorem c3_amended :
    (∀ (cfg : FixedCfg) (env : NetEnvA) (w : WorldA) (c : String),
        w.localHash = some c → c ≠ lowerStr cfg.fileHash →
        (∀ i cr, env.net i cr = .ok (lowerStr cfg.fileHash)) →
        fetchFixed cfg env 2 17 w none =
          .ret (.path cfg.fullfilename)
            ⟨some (lowerStr cfg.fileHash), w.creds,
             w.log ++ [NetOp.recurse, NetOp.retrieve cfg.url], w.attempts + 1⟩) ∧
    (∀ (k : MKind) (root : String) (env : NetEnvB) (d : MDesc) (w : WorldB)
        (c g : String) (rows rows' : List (String × String)),
        d.dr = 17 →
        w.manifests.lookup (mHashPath k root d) = some rows →
        w.files.lookup (mFullfilename k root d) = some c →
        mismatchCond c (mSelect k d rows) = .ok true →
        w.manifests.lookup (mHashPath k root (recurseDesc d)) = some rows' →
        (∀ i cr, env.net i cr (mUrl k (recurseDesc d)) = .ok g) →
        mismatchCond g (mSelect k (recurseDesc d) rows') = .ok false →
        fetchM k root env 2 d none w =
          .ret (.path (mFullfilename k root d))
            ⟨(mFullfilename k root (recurseDesc d), g) :: w.files, w.manifests, w.creds,
             w.log ++ [NetOp.recurse, NetOp.retrieve (mUrl k (recurseDesc d))],
             w.attempts + 1⟩) := by
  constructor
  · intro cfg env w c hc hne hgood
    have hinner := fetchFixed_inner_good cfg env hgood 0
      { w with log := w.log ++ [NetOp.recurse] }
    have := fetchFixed_discard cfg env 1 w c (.path cfg.fullfilename) _ hc hne hinner
    rw [this]
    simp [List.append_assoc]
  · intro k root env d w c g rows rows' hdr hman hfile hmis hman' hgood hok
    have hinner := fetchM_inner_good k root env 0 (recurseDesc d)
      { w with log := w.log ++ [NetOp.recurse] } rows' g hdr hman' hgood hok
    have := fetchM_discard k root env 1 d w rows c _ _ hdr hman hfile hmis hinner
    rw [this]
    simp [List.append_assoc]

/-- Witness for C3 (amended): a corrupted local `allstar` file with a remote
    whose downloads always verify triggers exactly one recursive call and
    one download. -/
theorem c3_amended_witness :
    w0A.localHash = some "bad" ∧
    "bad" ≠ lowerStr cfgAllstar.fileHash ∧
    fetchFixed cfgAllstar envGoodAllstar 2 17 w0A none =
      .ret (.path cfgAllstar.fullfilename)
        ⟨some (lowerStr cfgAllstar.fileHash), w0A.creds,
         w0A.log ++ [NetOp.recurse, NetOp.retrieve cfgAllstar.url], w0A.attempts + 1⟩ :=
  ⟨rfl, by decide,
    c3_amended.1 cfgAllstar envGoodAllstar w0A "bad" rfl (by decide) (fun i cr => rfl)⟩

/-! ## Claim C4 -/

/-- C4: under the precondition that every freshly downloaded file verifies
    against its expected checksum, every download function terminates with
    corruption-recovery recursion depth at most one (fuel 2 — the fuel
    decreases exactly at recursive-call sites — never runs out); without the
    precondition the recursion is unbounded: a concrete always-corrupting
    remote exhausts *every* fuel bound from a corrupted local file. -/
theorem c4_termination :
    (∀ (cfg : FixedCfg) (env : NetEnvA), GoodEnvA cfg env →
        ∀ (dr : Nat) (w : WorldA) (flag : Option Nat),
        fetchFixed cfg env 2 dr w flag ≠ .diverge) ∧
    (∀ (k : MKind) (root : String) (env : NetEnvB) (d : MDesc), GoodEnvB k d env →
        ∀ (flag : Option Nat) (w : WorldB), fetchM k root env 2 d flag w ≠ .diverge) ∧
    (∀ n : Nat,
        fetchFixed (allstarCfg "astroNN") envBadA n 17 ⟨some "ffff", none, [], 0⟩ none =
          .diverge) :=
  ⟨fun cfg env h dr w flag => fetchFixed_fuel2_ne_diverge cfg env h dr w flag,
   fun k root env d h flag w => fetchM_fuel2_ne_diverge k root env d h flag w,
   allstar_bad_corrupt_diverge⟩

/-- Witness for C4: with the always-verifying remote, `allstar` from a
    corrupted local file does not exhaust fuel 2; a 404-only remote
    satisfies the manifest-side precondition vacuously. -/
theorem c4_termination_witness :
    fetchFixed cfgAllstar envGoodAllstar 2 17 w0A none ≠ .diverge ∧
    fetchM .combined "astroNN"
        ⟨fun _ _ _ => .e404, fun _ => true, fun _ => .err .e404, ⟨"u", "p"⟩⟩ 2
        ⟨17, none, some "F", some "A", some "apo25m", 1, false⟩ none
        ⟨[], [], none, [], 0⟩ ≠ .diverge :=
  ⟨c4_termination.1 cfgAllstar envGoodAllstar
      (fun i c h hh => ((Resp.ok.injEq _ _).mp hh).symm) 17 w0A none,
   c4_termination.2.1 .combined "astroNN" _ _
      (fun i c h rows hh => by cases hh) none ⟨[], [], none, [], 0⟩⟩

/-! ## Claim C5 -/

/-- C5, counterexample.  `apogee_distances` never reaches the credential
    flow: its bare `except HTTPError` turns even a persistent 401 into the
    not-found sentinel, raising nothing and leaving the cached credentials
    exactly as they were.  `allvisit` (second conjunct) instead lets the
    raw `HTTPError` — not a `ConnectionError` — propagate.  So the claim is
    false for two of the seven public functions. -/
theorem c5_counterexample :
    fetchFixed (apogeeDistancesCfg "astroNN") env401A 2 17 wCredsA none =
      .ret .flagFalse
        ⟨none, some ⟨"alice", "secret"⟩,
         [NetOp.retrieve (apogeeDistancesCfg "astroNN").url], 1⟩ ∧
    fetchFixed (allvisitCfg "astroNN") env401A 2 17 wCredsA none =
      .raise (.httpError .e401)
        ⟨none, some ⟨"alice", "secret"⟩,
         [NetOp.retrieve (allvisitCfg "astroNN").url], 1⟩ :=
  ⟨by decide, by decide⟩

/-- C5, amended.  For the functions that route 401 into
    `__apogee_credentials_downloader` — `allstar`, `apogee_astronn`,
    `apogee_rc` (the `.cred` style) and `combined_spectra`/`visit_spectra` —
    a 401 on the download followed by a 401 on the authenticated retry
    raises `ConnectionError` with the process-wide credentials cleared
    before the raise.  `apogee_distances` instead returns the sentinel and
    `allvisit` propagates the raw `HTTPError`, in both cases leaving the
    credential cache untouched. -/
theorem c5_amended :
    (∀ (cfg : FixedCfg) (env : NetEnvA) (w : WorldA), cfg.style = .cred →
        (∀ i c, env.net i c = .e401) → w.localHash = none →
        fetchFixed cfg env 1 17 w none =
          .raise .connectionError
            ⟨none, none, w.log ++ [NetOp.retrieve cfg.url, NetOp.retrieve cfg.url],
             w.attempts + 2⟩) ∧
    (∀ (k : MKind) (root : String) (env : NetEnvB) (d : MDesc) (w : WorldB)
        (rows : List (String × String)), d.dr = 17 →
        (∀ i c u, env.net i c u = .e401) →
        w.manifests.lookup (mHashPath k root d) = some rows →
        w.files.lookup (mFullfilename k root d) = none →
        fetchM k root env 1 d none w =
          .raise .connectionError
            ⟨w.files, w.manifests, none,
             w.log ++ [NetOp.retrieve (mUrl k d), NetOp.retrieve (mUrl k d)],
             w.attempts + 2⟩) ∧
    (∀ (cfg : FixedCfg) (env : NetEnvA) (w : WorldA), cfg.style = .bare404 →
        (∀ i c, env.net i c = .e401) → w.localHash = none →
        fetchFixed cfg env 1 17 w none =
          .ret .flagFalse
            ⟨none, w.creds, w.log ++ [NetOp.retrieve cfg.url], w.attempts + 1⟩) ∧
    (∀ (cfg : FixedCfg) (env : NetEnvA) (w : WorldA), cfg.style = .noTry →
        (∀ i c, env.net i c = .e401) → w.localHash = none →
        fetchFixed cfg env 1 17 w none =
          .raise (.httpError .e401)
            ⟨none, w.creds, w.log ++ [NetOp.retrieve cfg.url], w.attempts + 1⟩) := by
  refine ⟨?_, ?_, ?_, ?_⟩
  · intro cfg env w hstyle h401 hw
    rw [fetchFixed_401_body cfg env 0 w h401 hw]
    simp only [applyHandler, hstyle]
    rcases hcr : w.creds with _ | cr <;>
      simp only [credDL, hcr, reduceIte] <;>
      simp only [h401] <;>
      simp [List.append_assoc]
  · intro k root env d w rows hdr h401 hman hfile
    simp only [fetchM]
    rw [if_neg (by simp [hdr])]
    have hms : manifestStep k root env d w = Sum.inr (rows, w) := by
      simp only [manifestStep, hman]
    rw [hms]
    dsimp only
    simp only [hfile, Option.isSome_none, Bool.false_and, Bool.false_eq_true, reduceIte,
      Bool.not_false, Bool.true_or]
    simp only [tryBodyM, h401]
    simp only [handlerM]
    rcases hcr : w.creds with _ | cr <;>
      simp only [credDLB, hcr, reduceIte] <;>
      simp only [h401] <;>
      simp [List.append_assoc]
  · intro cfg env w hstyle h401 hw
    rw [fetchFixed_401_body cfg env 0 w h401 hw]
    simp only [applyHandler, hstyle]
  · intro cfg env w hstyle h401 hw
    rw [fetchFixed_401_body cfg env 0 w h401 hw]
    simp only [applyHandler, hstyle]

/-- Witness for C5 (amended): `allstar` (a `.cred`-style function) under a
    401-only remote raises `ConnectionError` with the credentials cleared,
    starting from a cached credential pair. -/
theorem c5_amended_witness :
    cfgAllstar.style = .cred ∧
    fetchFixed cfgAllstar env401A 1 17 wCredsA none =
      .raise .connectionError
        ⟨none, none, [NetOp.retrieve cfgAllstar.url, NetOp.retrieve cfgAllstar.url], 2⟩ :=
  ⟨rfl, c5_amended.1 cfgAllstar env401A wCredsA rfl (fun i c => rfl) rfl⟩

/-! ## Claim C6 -/

/-- A `combined_spectra` descriptor used in concrete manifest scenarios. -/
def dC6 : MDesc := ⟨17, none, some "060+00", some "2M123", some "apo25m", 1, false⟩

/-- A manifest holding the expected checksum `aaaa` for `dC6`'s file. -/
def rowsC6 : List (String × String) := [("aaaa", mFilename .combined dC6), ("bbbb", "other.fits")]

/-- A remote that serves the `rowsC6` manifest, lets directory listings
    succeed, and 404s every data download. -/
def envC6 : NetEnvB := ⟨fun _ _ _ => .e404, fun _ => true, fun _ => .ok rowsC6, ⟨"u", "p"⟩⟩

/-- A world holding a valid local copy of `dC6`'s data file (hash `aaaa`)
    but no cached manifest. -/
def wC6 : WorldB := ⟨[(mFullfilename .combined "astroNN" dC6, "aaaa")], [], none, [], 0⟩

/-- C6, counterexample.  The local data file exists and its checksum equals
    the expected one (first two conjuncts), `flag` is `None` — yet because
    no local copy of the manifest exists, `combined_spectra` performs two
    network operations (a `urlopen` of the directory listing and a
    `urlretrieve` of the manifest) before declaring the file valid.  "Zero
    network operations, including no manifest fetch" is false. -/
theorem c6_counterexample :
    wC6.files.lookup (mFullfilename .combined "astroNN" dC6) = some "aaaa" ∧
    mSelect .combined dC6 rowsC6 = ["aaaa"] ∧
    fetchM .combined "astroNN" envC6 2 dC6 none wC6 =
      .ret (.path (mFullfilename .combined "astroNN" dC6))
        ⟨[(mFullfilename .combined "astroNN" dC6, "aaaa")],
         [(mHashPath .combined "astroNN" dC6, rowsC6)], none,
         [NetOp.openUrl (mStr1 .combined dC6), NetOp.retrieve (mManifestUrl .combined dC6)],
         1⟩ ∧
    [NetOp.openUrl (mStr1 .combined dC6), NetOp.retrieve (mManifestUrl .combined dC6)] ≠
      ([] : List NetOp) :=
  ⟨by decide, by decide, by decide, by decide⟩

/-- C6, amended.  A fixed-checksum function whose local file matches its
    hard-coded checksum performs zero network operations and returns the
    path with the world untouched; the manifest-based functions do the same
    *provided the checksum manifest is already cached locally* — if it is
    not, the manifest is fetched over the network even though the data file
    is valid (see the counterexample). -/
theorem c6_amended :
    (∀ (cfg : FixedCfg) (env : NetEnvA) (n : Nat) (w : WorldA) (c : String),
        w.localHash = some c → c = lowerStr cfg.fileHash →
        fetchFixed cfg env (n + 1) 17 w none = .ret (.path cfg.fullfilename) w) ∧
    (∀ (k : MKind) (root : String) (env : NetEnvB) (n : Nat) (d : MDesc) (w : WorldB)
        (rows : List (String × String)) (c : String), d.dr = 17 →
        w.manifests.lookup (mHashPath k root d) = some rows →
        w.files.lookup (mFullfilename k root d) = some c →
        mismatchCond c (mSelect k d rows) = .ok false →
        fetchM k root env (n + 1) d none w = .ret (.path (mFullfilename k root d)) w) := by
  constructor
  · intro cfg env n w c hc hceq
    simp only [fetchFixed]
    rw [if_neg (by simp)]
    rw [if_pos (by simp [hc])]
    have hint : integrityStep cfg (fun w' => fetchFixed cfg env n 17 w' (some 1)) w =
        Sum.inr w := by
      simp only [integrityStep, hc]
      rw [if_neg (not_not_intro hceq)]
    rw [hint]
    dsimp only
    simp only [hc, Option.isSome_some, Bool.not_true, flagIsOne_none, Bool.or_false,
      Bool.and_false, Bool.false_eq_true, reduceIte]
  · intro k root env n d w rows c hdr hman hfile hok
    simp only [fetchM]
    rw [if_neg (by simp [hdr])]
    have hms : manifestStep k root env d w = Sum.inr (rows, w) := by
      simp only [manifestStep, hman]
    rw [hms]
    dsimp only
    rw [if_pos (by simp [hfile])]
    rw [hfile]
    simp only [checkHashM, hok]

/-- Witness for C6 (amended): a matching local `allstar` file is reported
    found with the world — log included — unchanged, and similarly for a
    `combined_spectra` call whose manifest is cached. -/
theorem c6_amended_witness :
    fetchFixed cfgAllstar envGoodAllstar 1 17
        ⟨some (lowerStr cfgAllstar.fileHash), none, [], 0⟩ none =
      .ret (.path cfgAllstar.fullfilename)
        ⟨some (lowerStr cfgAllstar.fileHash), none, [], 0⟩ ∧
    fetchM .combined "astroNN" envC6 1 dC6 none
        { wC6 with manifests := [(mHashPath .combined "astroNN" dC6, rowsC6)] } =
      .ret (.path (mFullfilename .combined "astroNN" dC6))
        { wC6 with manifests := [(mHashPath .combined "astroNN" dC6, rowsC6)] } :=
  ⟨c6_amended.1 cfgAllstar envGoodAllstar 0
      ⟨some (lowerStr cfgAllstar.fileHash), none, [], 0⟩ (lowerStr cfgAllstar.fileHash)
      rfl rfl,
   c6_amended.2 .combined "astroNN" envC6 0 dC6
      { wC6 with manifests := [(mHashPath .combined "astroNN" dC6, rowsC6)] }
      rowsC6 "aaaa" rfl (by decide) (by decide) rfl⟩

/-! ## Claim C7 -/

/-- C7: for a fixed descriptor the computed local path and the set of URLs a
    call may contact are functions of the descriptor alone.  Any two runs —
    whatever the filesystem state, cached credentials, fuel, release check
    or network behaviour — that return a path return the *same* path (the
    one templated from the descriptor), and every network operation a run
    performs addresses a URL templated from the descriptor (`cfg.url` for
    the fixed-checksum functions; the `mAllowed` set for the manifest-based
    ones). -/
theorem c7_determinism :
    (∀ (cfg : FixedCfg) (env₁ env₂ : NetEnvA) (n₁ n₂ dr₁ dr₂ : Nat) (w₁ w₂ : WorldA)
        (f₁ f₂ : Option Nat) (p₁ p₂ : String) (u₁ u₂ : WorldA),
        fetchFixed cfg env₁ n₁ dr₁ w₁ f₁ = .ret (.path p₁) u₁ →
        fetchFixed cfg env₂ n₂ dr₂ w₂ f₂ = .ret (.path p₂) u₂ →
        p₁ = cfg.fullfilename ∧ p₂ = cfg.fullfilename ∧ p₁ = p₂) ∧
    (∀ (k : MKind) (root : String) (d : MDesc) (env₁ env₂ : NetEnvB) (n₁ n₂ : Nat)
        (w₁ w₂ : WorldB) (f₁ f₂ : Option Nat) (p₁ p₂ : String) (u₁ u₂ : WorldB),
        fetchM k root env₁ n₁ d f₁ w₁ = .ret (.path p₁) u₁ →
        fetchM k root env₂ n₂ d f₂ w₂ = .ret (.path p₂) u₂ →
        p₁ = mFullfilename k root d ∧ p₂ = mFullfilename k root d ∧ p₁ = p₂) ∧
    (∀ (cfg : FixedCfg) (env : NetEnvA) (n dr : Nat) (w : WorldA) (flag : Option Nat)
        (w' : WorldA), (fetchFixed cfg env n dr w flag).world = some w' →
        ∀ op ∈ w'.log, op ∈ w.log ∨ op = NetOp.retrieve cfg.url ∨ op = NetOp.recurse) ∧
    (∀ (k : MKind) (root : String) (env : NetEnvB) (n : Nat) (d : MDesc)
        (flag : Option Nat) (w : WorldB) (w' : WorldB),
        (fetchM k root env n d flag w).world = some w' →
        ∀ op ∈ w'.log, op ∈ w.log ∨ mAllowed k d op) := by
  have hfix : ∀ (cfg : FixedCfg) (env : NetEnvA) (n dr : Nat) (w : WorldA)
      (f : Option Nat) (p : String) (u : WorldA),
      fetchFixed cfg env n dr w f = .ret (.path p) u → p = cfg.fullfilename := by
    intro cfg env n dr w f p u h
    rcases fetchFixed_ret_shape cfg env n dr w f _ u h with h' | h'
    · exact (RVal.path.injEq _ _).mp h'
    · exact absurd h' (by simp)
  have hm : ∀ (k : MKind) (root : String) (d : MDesc) (env : NetEnvB) (n : Nat)
      (w : WorldB) (f : Option Nat) (p : String) (u : WorldB),
      fetchM k root env n d f w = .ret (.path p) u → p = mFullfilename k root d := by
    intro k root d env n w f p u h
    rcases fetchM_ret_shape k root env n d f w _ u h with h' | h'
    · exact (RVal.path.injEq _ _).mp h'
    · exact absurd h' (by simp)
  refine ⟨?_, ?_, ?_, ?_⟩
  · intro cfg env₁ env₂ n₁ n₂ dr₁ dr₂ w₁ w₂ f₁ f₂ p₁ p₂ u₁ u₂ h₁ h₂
    have e₁ := hfix cfg env₁ n₁ dr₁ w₁ f₁ p₁ u₁ h₁
    have e₂ := hfix cfg env₂ n₂ dr₂ w₂ f₂ p₂ u₂ h₂
    exact ⟨e₁, e₂, e₁.trans e₂.symm⟩
  · intro k root d env₁ env₂ n₁ n₂ w₁ w₂ f₁ f₂ p₁ p₂ u₁ u₂ h₁ h₂
    have e₁ := hm k root d env₁ n₁ w₁ f₁ p₁ u₁ h₁
    have e₂ := hm k root d env₂ n₂ w₂ f₂ p₂ u₂ h₂
    exact ⟨e₁, e₂, e₁.trans e₂.symm⟩
  · exact fun cfg env n dr w flag w' h => fetchFixed_log cfg env n dr w flag w' h
  · exact fun k root env n d flag w w' h => fetchM_log k root env n d flag w w' h

/-- Witness for C7: two runs of `allstar` from different filesystem states
    and network behaviours return the identical descriptor-determined
    path. -/
theorem c7_determinism_witness :
    fetchFixed cfgAllstar envGoodAllstar 1 17 wEmptyA none =
      .ret (.path cfgAllstar.fullfilename)
        ⟨some (lowerStr cfgAllstar.fileHash), none, [NetOp.retrieve cfgAllstar.url], 1⟩ ∧
    fetchFixed cfgAllstar env404A 3 17 w0A none =
      .ret (.path cfgAllstar.fullfilename)
        ⟨some "bad", none, [NetOp.recurse, NetOp.retrieve cfgAllstar.url], 1⟩ ∧
    (cfgAllstar.fullfilename = cfgAllstar.fullfilename ∧
     cfgAllstar.fullfilename = cfgAllstar.fullfilename ∧
     cfgAllstar.fullfilename = cfgAllstar.fullfilename) :=
  ⟨by decide, by decide,
   c7_determinism.1 cfgAllstar envGoodAllstar env404A 1 3 17 17 wEmptyA w0A none none
     cfgAllstar.fullfilename cfgAllstar.fullfilename
     ⟨some (lowerStr cfgAllstar.fileHash), none, [NetOp.retrieve cfgAllstar.url], 1⟩
     ⟨some "bad", none, [NetOp.recurse, NetOp.retrieve cfgAllstar.url], 1⟩
     (by decide) (by decide)⟩

/-! ## Claim C8 -/

/-- C8: when the fetched manifest contains no entry for the requested
    filename, the expected-checksum list is empty, so the mismatch branch
    (`checksum != file_hash and len(file_hash) != 0`) is not taken: the file
    is treated as valid and no error is raised.  First conjunct: an existing
    local file of *any* content is accepted untouched.  Second conjunct: a
    freshly downloaded file of any content is accepted after the one
    download. -/
theorem c8_manifest_absent :
    ∀ (k : MKind) (root : String) (env : NetEnvB) (n : Nat) (d : MDesc) (w : WorldB)
      (rows : List (String × String)),
      d.dr = 17 →
      w.manifests.lookup (mHashPath k root d) = some rows →
      mSelect k d rows = [] →
      (∀ c, w.files.lookup (mFullfilename k root d) = some c →
        fetchM k root env (n + 1) d none w = .ret (.path (mFullfilename k root d)) w) ∧
      (∀ h, w.files.lookup (mFullfilename k root d) = none →
        env.net w.attempts w.creds (mUrl k d) = .ok h →
        fetchM k root env (n + 1) d none w =
          .ret (.path (mFullfilename k root d))
            ⟨(mFullfilename k root d, h) :: w.files, w.manifests, w.creds,
             w.log ++ [NetOp.retrieve (mUrl k d)], w.attempts + 1⟩) := by
  intro k root env n d w rows hdr hman hsel
  have hms : manifestStep k root env d w = Sum.inr (rows, w) := by
    simp only [manifestStep, hman]
  constructor
  · intro c hfile
    simp only [fetchM]
    rw [if_neg (by simp [hdr]), hms]
    dsimp only
    rw [if_pos (by simp [hfile])]
    rw [hfile]
    simp only [checkHashM, hsel, mismatchCond]
  · intro h hfile hnet
    simp only [fetchM]
    rw [if_neg (by simp [hdr]), hms]
    dsimp only
    simp only [hfile, Option.isSome_none, Bool.false_and, Bool.false_eq_true, reduceIte,
      Bool.not_false, Bool.true_or]
    simp only [tryBodyM, hnet, checkHashM, hsel, mismatchCond, handlerM]

/-- Witness for C8: a manifest listing only unrelated files lets a local
    copy with an arbitrary checksum pass, untouched and error-free. -/
theorem c8_manifest_absent_witness :
    dC6.dr = 17 ∧
    fetchM .combined "astroNN" envC6 1 dC6 none
        ⟨[(mFullfilename .combined "astroNN" dC6, "zzzz")],
         [(mHashPath .combined "astroNN" dC6, [("cccc", "unrelated.fits")])], none, [], 0⟩ =
      .ret (.path (mFullfilename .combined "astroNN" dC6))
        ⟨[(mFullfilename .combined "astroNN" dC6, "zzzz")],
         [(mHashPath .combined "astroNN" dC6, [("cccc", "unrelated.fits")])], none, [], 0⟩ :=
  ⟨rfl,
   (c8_manifest_absent .combined "astroNN" envC6 0 dC6
      ⟨[(mFullfilename .combined "astroNN" dC6, "zzzz")],
       [(mHashPath .combined "astroNN" dC6, [("cccc", "unrelated.fits")])], none, [], 0⟩
      [("cccc", "unrelated.fits")] rfl (by decide) (by decide)).1 "zzzz" (by decide)⟩

/-! ## Claim C10 -/

/-- A pattern starting `'a' :: 'p' :: …` that is almost as long as the
    target cannot occur in a target whose (long enough) head contains no
    `'p'`: the occurrence would place a `'p'` inside that head. -/
theorem no_p_infix (pre a suf q : List Char)
    (hp : ∀ c ∈ pre, c ≠ 'p')
    (hlen : a.length + suf.length + 1 < ('a' :: 'p' :: q).length) :
    ¬ ('a' :: 'p' :: q) <:+: (pre ++ a ++ suf) := by
  rintro ⟨s, u, hsplit⟩
  have hlens := congrArg List.length hsplit
  simp only [List.length_append, List.length_cons] at hlens hlen
  have hs1 : s.length + 1 < pre.length := by omega
  have h1 : (s ++ ('a' :: 'p' :: q) ++ u)[s.length + 1]? = some 'p' := by
    rw [List.append_assoc, List.getElem?_append_right (by omega)]
    simp
  rw [hsplit] at h1
  rw [List.append_assoc, List.getElem?_append, if_pos hs1] at h1
  have hc : 'p' ∈ pre := by
    have := List.getElem?_eq_some.mp h1
    obtain ⟨hlt, hg⟩ := this
    exact hg ▸ List.getElem_mem hlt
  exact hp 'p' hc rfl

/-- C10: `visit_spectra` looks the checksum up by testing manifest filenames
    for the substring `apStar-{reduce_prefix}-{apogee}` — a pattern
    independent of the telescope (third conjunct).  For `telescope="lco25m"`
    the file actually downloaded is named `asStar…`/`asStarC…`, which never
    contains that pattern (first conjunct, for every apogee id and either
    commission flag), so the hash selection never picks the manifest row of
    the downloaded file (second conjunct). -/
theorem c10_lco_lookup (d : MDesc) (rows : List (String × String))
    (ht : d.telescope = some "lco25m") :
    substrB (visitPattern d) (mFilename .visit d) = false ∧
    (∀ r ∈ mSelectRows .visit d rows, r.2 ≠ mFilename .visit d) ∧
    (∀ t, visitPattern { d with telescope := t } = visitPattern d) := by
  have hpat : (visitPattern d).data =
      'a' :: 'p' :: (("Star-dr17-" : String).data ++ (pyStr d.apogee).data) := by
    show ("apStar-dr17-" ++ pyStr d.apogee : String).data = _
    rw [String.data_append]
    rfl
  have h1 : substrB (visitPattern d) (mFilename .visit d) = false := by
    cases hcomm : d.commission with
    | false =>
      have hfn : (mFilename .visit d).data =
          ("asStar-dr17-" : String).data ++ (pyStr d.apogee).data
            ++ (".fits" : String).data := by
        simp only [mFilename, ht, hcomm]
        rfl
      simp only [substrB, decide_eq_false_iff_not, hfn, hpat]
      apply no_p_infix
      · decide
      · simp only [List.length_cons, List.length_append]
        have e1 : (("Star-dr17-" : String).data).length = 10 := by decide
        have e2 : ((".fits" : String).data).length = 5 := by decide
        omega
    | true =>
      have hfn : (mFilename .visit d).data =
          ("asStarC-dr17-" : String).data ++ (pyStr d.apogee).data
            ++ (".fits" : String).data := by
        simp only [mFilename, ht, hcomm]
        rfl
      simp only [substrB, decide_eq_false_iff_not, hfn, hpat]
      apply no_p_infix
      · decide
      · simp only [List.length_cons, List.length_append]
        have e1 : (("Star-dr17-" : String).data).length = 10 := by decide
        have e2 : ((".fits" : String).data).length = 5 := by decide
        omega
  refine ⟨h1, ?_, fun t => rfl⟩
  intro r hr heq
  simp only [mSelectRows] at hr
  have hmem := List.mem_filter.mp hr
  rw [heq] at hmem
  rw [h1] at hmem
  exact Bool.false_ne_true hmem.2

/-- Witness for C10: a concrete `lco25m` descriptor; its manifest row for
    the downloaded `asStar` file is never selected. -/
theorem c10_lco_lookup_witness :
    (⟨17, none, some "F1", some "2M123", some "lco25m", 1, false⟩ : MDesc).telescope =
      some "lco25m" ∧
    substrB (visitPattern ⟨17, none, some "F1", some "2M123", some "lco25m", 1, false⟩)
      (mFilename .visit ⟨17, none, some "F1", some "2M123", some "lco25m", 1, false⟩) =
      false :=
  ⟨rfl,
   (c10_lco_lookup ⟨17, none, some "F1", some "2M123", some "lco25m", 1, false⟩
     [] rfl).1⟩

/-! ## Claim C9: segment lemmas

A slash-separated segment decomposition `t ++ '/' :: (f ++ '/' :: r)` with
slash-free `t` and `f` is unique: both segments are recovered by
`takeWhile`/`dropWhile` at the first slash. -/

theorem takeWhile_no_slash (t r : List Char) (ht : ∀ c ∈ t, c ≠ '/') :
    (t ++ '/' :: r).takeWhile (fun c => !(c == '/')) = t ∧
    (t ++ '/' :: r).dropWhile (fun c => !(c == '/')) = '/' :: r := by
  induction t with
  | nil =>
    constructor <;>
      simp [List.takeWhile_cons, List.dropWhile_cons]
  | cons c cs ih =>
    have hc : (c == '/') = false := by
      simpa using ht c (by simp)
    have ih' := ih (fun x hx => ht x (by simp [hx]))
    constructor
    · rw [List.cons_append, List.takeWhile_cons, hc]
      simp [ih'.1]
    · rw [List.cons_append, List.dropWhile_cons, hc]
      simp [ih'.2]

theorem slash_seg_eq (t f t' f' r r' : List Char)
    (ht : ∀ c ∈ t, c ≠ '/') (hf : ∀ c ∈ f, c ≠ '/')
    (ht' : ∀ c ∈ t', c ≠ '/') (hf' : ∀ c ∈ f', c ≠ '/')
    (h : t ++ '/' :: (f ++ '/' :: r) = t' ++ '/' :: (f' ++ '/' :: r')) :
    t = t' ∧ f = f' ∧ r = r' := by
  have h1 := congrArg (List.takeWhile (fun c => !(c == '/'))) h
  have h2 := congrArg (List.dropWhile (fun c => !(c == '/'))) h
  rw [(takeWhile_no_slash t _ ht).1, (takeWhile_no_slash t' _ ht').1] at h1
  rw [(takeWhile_no_slash t _ ht).2, (takeWhile_no_slash t' _ ht').2] at h2
  have h3 : f ++ '/' :: r = f' ++ '/' :: r' := by
    exact (List.cons.injEq _ _ _ _).mp h2 |>.2
  have h4 := congrArg (List.takeWhile (fun c => !(c == '/'))) h3
  have h5 := congrArg (List.dropWhile (fun c => !(c == '/'))) h3
  rw [(takeWhile_no_slash f _ hf).1, (takeWhile_no_slash f' _ hf').1] at h4
  rw [(takeWhile_no_slash f _ hf).2, (takeWhile_no_slash f' _ hf').2] at h5
  exact ⟨h1, h4, (List.cons.injEq _ _ _ _).mp h5 |>.2⟩

/-- The core inequality behind C9 (amended): with slash-free `t` and `f`
    not both `"None"`, a `…/t/f/file₁` tail can never coincide with the
    re-fetch's `…/None/None/file₂` tail, whatever the two file names. -/
theorem seg_data_ne (P fn₁ fn₂ : List Char) (t f : String)
    (ht : ∀ c ∈ t.data, c ≠ '/') (hf : ∀ c ∈ f.data, c ≠ '/')
    (hne : ¬(t = "None" ∧ f = "None")) :
    P ++ (t.data ++ '/' :: (f.data ++ '/' :: fn₁)) ≠
      P ++ (("None" : String).data ++ '/' :: (("None" : String).data ++ '/' :: fn₂)) := by
  intro h
  have h' := List.append_cancel_left h
  obtain ⟨h1, h2, -⟩ := slash_seg_eq _ _ _ _ _ _ ht hf (by decide) (by decide) h'
  exact hne ⟨String.ext h1, String.ext h2⟩

/-! ## Claim C9: `posixpath.join` normalisation -/

theorem startsSlash_free (s : String) (h : ∀ c ∈ s.data, c ≠ '/') :
    startsSlash s = false := by
  rcases hd : s.data with _ | ⟨c, cs⟩
  · simp [startsSlash, hd]
  · have hc := h c (by simp [hd])
    simp [startsSlash, hd, hc]

theorem startsSlash_of_head (s : String) (c : Char) (hc : s.data.head? = some c)
    (h : c ≠ '/') : startsSlash s = false := by
  simp [startsSlash, hc, h]

theorem append_ne_empty (x t : String) (h : t ≠ "") : x ++ t ≠ "" := by
  intro hh
  have hd := congrArg String.data hh
  rw [String.data_append] at hd
  exact h (String.ext (List.append_eq_nil.mp hd).2)

theorem append_ne_empty_left (x t : String) (h : x ≠ "") : x ++ t ≠ "" := by
  intro hh
  have hd := congrArg String.data hh
  rw [String.data_append] at hd
  exact h (String.ext (List.append_eq_nil.mp hd).1)

theorem startsSlash_append_left (b c : String) (hne : b ≠ "") :
    startsSlash (b ++ c) = startsSlash b := by
  rcases hd : b.data with _ | ⟨x, xs⟩
  · exact absurd (String.ext hd) hne
  · simp [startsSlash, String.data_append, hd]

theorem getLast?_no_slash (t : String) (hne : t ≠ "") (h : ∀ c ∈ t.data, c ≠ '/') :
    ∃ c, t.data.getLast? = some c ∧ c ≠ '/' := by
  have hd : t.data ≠ [] := fun hh => hne (String.ext hh)
  exact ⟨t.data.getLast hd, List.getLast?_eq_getLast t.data hd,
    h _ (List.getLast_mem hd)⟩

theorem endsSlash_append_free (x t : String) (c : Char)
    (hgl : t.data.getLast? = some c) (hc : c ≠ '/') : endsSlash (x ++ t) = false := by
  simp [endsSlash, String.data_append, List.getLast?_append, hgl, hc]

theorem endsSlash_concat_slash (x : String) : endsSlash (x ++ "/") = true := by
  have : (x ++ "/").data = x.data ++ ['/'] := by rw [String.data_append]
  simp [endsSlash, this, List.getLast?_concat]

theorem pj_sep (a b : String) (hb : startsSlash b = false) (hane : a ≠ "")
    (haends : endsSlash a = false) : pj a b = a ++ "/" ++ b := by
  have hcond : ¬(a = "" ∨ endsSlash a = true) := by
    rintro (h | h)
    · exact hane h
    · rw [haends] at h
      exact Bool.false_ne_true h
  simp only [pj, hb, Bool.false_eq_true, if_false, hcond]

theorem pj_flush (a b : String) (hb : startsSlash b = false)
    (haends : endsSlash a = true) : pj a b = a ++ b := by
  have hcond : a = "" ∨ endsSlash a = true := Or.inr haends
  simp only [pj, hb, Bool.false_eq_true, if_false, hcond, if_true]

theorem pj_append_right (a b c : String) (hb : startsSlash b = false)
    (hbc : startsSlash (b ++ c) = false) : pj a (b ++ c) = pj a b ++ c := by
  by_cases h : a = "" ∨ endsSlash a = true
  · simp only [pj, hb, hbc, Bool.false_eq_true, if_false, h, if_true]
    simp [String.append_assoc]
  · simp only [pj, hb, hbc, Bool.false_eq_true, if_false, h]
    simp [String.append_assoc]

/-- With slash-free, nonempty `telescope` and `field`, the local path
    `combined_spectra` computes has the plain segmented form
    `prefix / telescope / field / filename`, with a prefix that depends on
    the environment root only. -/
theorem combined_path_shape (root : String) (d : MDesc)
    (ht : ∀ c ∈ (pyStr d.telescope).data, c ≠ '/') (htne : pyStr d.telescope ≠ "")
    (hf : ∀ c ∈ (pyStr d.field).data, c ≠ '/') (hfne : pyStr d.field ≠ "") :
    mFullfilename .combined root d =
      pj (pj "/" root) "dr17/apogee/spectro/aspcap/dr17/synspec/" ++ pyStr d.telescope
        ++ "/" ++ pyStr d.field ++ "/" ++ mFilename .combined d := by
  obtain ⟨ct, hglt, hct⟩ := getLast?_no_slash _ htne ht
  obtain ⟨cf, hglf, hcf⟩ := getLast?_no_slash _ hfne hf
  have h1 : pj (pj "/" root)
      ("dr17/apogee/spectro/aspcap/dr17/synspec/" ++ pyStr d.telescope) =
      pj (pj "/" root) "dr17/apogee/spectro/aspcap/dr17/synspec/" ++ pyStr d.telescope :=
    pj_append_right _ _ _ (by decide)
      (by rw [startsSlash_append_left _ _ (by decide)]; decide)
  have h2 : mFolder .combined root d =
      pj (pj "/" root) "dr17/apogee/spectro/aspcap/dr17/synspec/" ++ pyStr d.telescope
        ++ "/" ++ pyStr d.field := by
    show pj (pj (pj "/" root)
        ("dr17/apogee/spectro/aspcap/dr17/synspec/" ++ pyStr d.telescope))
        (pyStr d.field) = _
    rw [h1]
    exact pj_sep _ _ (startsSlash_free _ hf) (append_ne_empty _ _ htne)
      (endsSlash_append_free _ _ ct hglt hct)
  have hfnstart : startsSlash (mFilename .combined d) = false := by
    show startsSlash ("aspcapStar-dr17-" ++ pyStr d.apogee ++ ".fits") = false
    rw [startsSlash_append_left _ _ (append_ne_empty_left _ _ (by decide)),
      startsSlash_append_left _ _ (by decide)]
    decide
  show pj (mFolder .combined root d) (mFilename .combined d) = _
  rw [h2, pj_sep _ _ hfnstart (append_ne_empty _ _ hfne)
    (endsSlash_append_free _ _ cf hglf hcf)]

/-- The `visit_spectra` analogue of `combined_path_shape`. -/
theorem visit_path_shape (root : String) (d : MDesc)
    (ht : ∀ c ∈ (pyStr d.telescope).data, c ≠ '/') (htne : pyStr d.telescope ≠ "")
    (hf : ∀ c ∈ (pyStr d.field).data, c ≠ '/') (hfne : pyStr d.field ≠ "") :
    mFullfilename .visit root d =
      pj (pj "/" root) "dr17/apogee/spectro/redux/dr17/stars/" ++ pyStr d.telescope
        ++ "/" ++ pyStr d.field ++ "/" ++ mFilename .visit d := by
  obtain ⟨cf, hglf, hcf⟩ := getLast?_no_slash _ hfne hf
  have hlitne : ("dr17/apogee/spectro/redux/dr17/stars/" ++ pyStr d.telescope : String) ≠ "" :=
    append_ne_empty_left _ _ (by decide)
  have h1 : pj (pj "/" root)
      ("dr17/apogee/spectro/redux/dr17/stars/" ++ pyStr d.telescope ++ "/") =
      pj (pj "/" root) "dr17/apogee/spectro/redux/dr17/stars/" ++ pyStr d.telescope
        ++ "/" := by
    rw [pj_append_right _ _ "/"
        (by rw [startsSlash_append_left _ _ (by decide)]; decide)
        (by rw [startsSlash_append_left _ _ hlitne,
              startsSlash_append_left _ _ (by decide)]; decide),
      pj_append_right _ _ (pyStr d.telescope) (by decide)
        (by rw [startsSlash_append_left _ _ (by decide)]; decide)]
  have h2 : mFolder .visit root d =
      pj (pj "/" root) "dr17/apogee/spectro/redux/dr17/stars/" ++ pyStr d.telescope
        ++ "/" ++ pyStr d.field := by
    show pj (pj (pj "/" root)
        ("dr17/apogee/spectro/redux/dr17/stars/" ++ pyStr d.telescope ++ "/"))
        (pyStr d.field) = _
    rw [h1]
    exact pj_flush _ _ (startsSlash_free _ hf) (endsSlash_concat_slash _)
  have hfnstart : startsSlash (mFilename .visit d) = false := by
    simp only [mFilename]
    split <;> split <;>
      (rw [startsSlash_append_left _ _ (append_ne_empty_left _ _ (by decide)),
        startsSlash_append_left _ _ (by decide)]; decide)
  show pj (mFolder .visit root d) (mFilename .visit d) = _
  rw [h2, pj_sep _ _ hfnstart (append_ne_empty _ _ hfne)
    (endsSlash_append_free _ _ cf hglf hcf)]

/-- C9, counterexample.  The claim's conclusion fails for a descriptor whose
    field and telescope are the (non-`None`!) strings `"None"`: the
    recursive call still drops both, but the f-string renders `None` as
    `"None"`, so the re-fetch computes *exactly the same* URL and local path
    as the original call. -/
theorem c9_counterexample :
    (⟨17, none, some "None", some "A", some "None", 1, false⟩ : MDesc).field ≠ none ∧
    (⟨17, none, some "None", some "A", some "None", 1, false⟩ : MDesc).telescope ≠ none ∧
    mUrl .combined (recurseDesc ⟨17, none, some "None", some "A", some "None", 1, false⟩) =
      mUrl .combined ⟨17, none, some "None", some "A", some "None", 1, false⟩ ∧
    mFullfilename .combined "astroNN"
        (recurseDesc ⟨17, none, some "None", some "A", some "None", 1, false⟩) =
      mFullfilename .combined "astroNN"
        ⟨17, none, some "None", some "A", some "None", 1, false⟩ ∧
    mUrl .visit (recurseDesc ⟨17, none, some "None", some "A", some "None", 1, false⟩) =
      mUrl .visit ⟨17, none, some "None", some "A", some "None", 1, false⟩ ∧
    mFullfilename .visit "astroNN"
        (recurseDesc ⟨17, none, some "None", some "A", some "None", 1, false⟩) =
      mFullfilename .visit "astroNN"
        ⟨17, none, some "None", some "A", some "None", 1, false⟩ :=
  ⟨by decide, by decide, by decide, by decide, by decide, by decide⟩

/-- C9, amended.  The corruption-recovery recursive call of
    `combined_spectra`/`visit_spectra` passes only `dr`, `location`,
    `apogee`, `verbose` and `flag=1`, so `field`, `telescope` (and
    `commission`) revert to their defaults (first conjunct — definitional).
    Consequently the re-fetch's URL and local path, computed with the
    `"None"` placeholders, differ from the original call's *provided* the
    formatted field and telescope are nonempty, contain no `'/'`, and are
    not both the literal string `"None"` (second conjunct; the
    counterexample shows the `"None"` proviso is necessary). -/
theorem c9_amended :
    (∀ d : MDesc,
      recurseDesc d = { d with field := none, telescope := none, commission := false }) ∧
    (∀ (k : MKind) (root : String) (d : MDesc),
        (∀ c ∈ (pyStr d.telescope).data, c ≠ '/') → pyStr d.telescope ≠ "" →
        (∀ c ∈ (pyStr d.field).data, c ≠ '/') → pyStr d.field ≠ "" →
        ¬(pyStr d.telescope = "None" ∧ pyStr d.field = "None") →
        mUrl k (recurseDesc d) ≠ mUrl k d ∧
        mFullfilename k root (recurseDesc d) ≠ mFullfilename k root d) := by
  have hslash : ("/" : String).data = ['/'] := rfl
  refine ⟨fun d => rfl, ?_⟩
  intro k root d ht htne hf hfne hnn
  have htr : ∀ c ∈ (pyStr (recurseDesc d).telescope).data, c ≠ '/' := by
    simp only [recurseDesc, pyStr]
    decide
  have htner : pyStr (recurseDesc d).telescope ≠ "" := by
    simp only [recurseDesc, pyStr]
    decide
  have hfr : ∀ c ∈ (pyStr (recurseDesc d).field).data, c ≠ '/' := by
    simp only [recurseDesc, pyStr]
    decide
  have hfner : pyStr (recurseDesc d).field ≠ "" := by
    simp only [recurseDesc, pyStr]
    decide
  cases k with
  | combined =>
    constructor
    · intro h
      have hd := congrArg String.data h.symm
      simp only [mUrl, mStr1, mFilename, recurseDesc, pyStr, String.data_append,
        List.append_assoc, hslash, List.singleton_append] at hd
      exact seg_data_ne _ _ _ _ _ ht hf hnn hd
    · intro h
      have ho := combined_path_shape root d ht htne hf hfne
      have hr := combined_path_shape root (recurseDesc d) htr htner hfr hfner
      rw [ho, hr] at h
      have hd := congrArg String.data h.symm
      simp only [recurseDesc, pyStr, String.data_append, List.append_assoc, hslash,
        List.singleton_append] at hd
      exact seg_data_ne _ _ _ _ _ ht hf hnn hd
  | visit =>
    constructor
    · intro h
      have hd := congrArg String.data h.symm
      simp only [mUrl, mStr1, mFilename, recurseDesc, pyStr, String.data_append,
        List.append_assoc, hslash, List.singleton_append] at hd
      exact seg_data_ne _ _ _ _ _ ht hf hnn hd
    · intro h
      have ho := visit_path_shape root d ht htne hf hfne
      have hr := visit_path_shape root (recurseDesc d) htr htner hfr hfner
      rw [ho, hr] at h
      have hd := congrArg String.data h.symm
      simp only [recurseDesc, pyStr, String.data_append, List.append_assoc, hslash,
        List.singleton_append] at hd
      exact seg_data_ne _ _ _ _ _ ht hf hnn hd

/-- Witness for C9 (amended): a realistic descriptor (`apo25m`, field
    `060+00`) computes a re-fetch URL and local path that really differ from
    the original ones. -/
theorem c9_amended_witness :
    recurseDesc dC6 = { dC6 with field := none, telescope := none, commission := false } ∧
    mUrl .combined (recurseDesc dC6) ≠ mUrl .combined dC6 ∧
    mFullfilename .combined "astroNN" (recurseDesc dC6) ≠
      mFullfilename .combined "astroNN" dC6 :=
  ⟨(c9_amended.1 dC6),
   (c9_amended.2 .combined "astroNN" dC6 (by decide) (by decide) (by decide) (by decide)
     (by decide)).1,
   (c9_amended.2 .combined "astroNN" dC6 (by decide) (by decide) (by decide) (by decide)
     (by decide)).2⟩

end AstroDL
